import Mathlib

/-! Invaders: a verification development of `src/js/sketch.js`.

The game is a p5.js sketch.  Its globals become one record `Game`; every
function of the sketch becomes a pure function on that record.  JavaScript
numbers are modelled by exact rationals (`ℚ`) for positions and timers and by
integers for the counters `life`, `score` and `highScore`.  The canvas size, the
keys held, the mouse and the value returned by `random` are inputs.  The
collision test `collideRectPoly` belongs to an external library and is a
parameter of the bullet pass.
-/

namespace Invaders

/-! ## Game constants -/

/-- The constant `shipWidth` of the sketch. -/
def shipWidth : ℚ := 60

/-- The constant `shipHeight` of the sketch. -/
def shipHeight : ℚ := 30

/-- The p5.js key code `RETURN`. -/
def RETURN : Nat := 13

/-! ## Entities -/

/-- The player ship: only the two mutable coordinates are stored, the other
fields of the constructor are constants. -/
structure Ship where
  xPos : ℚ
  yPos : ℚ
  deriving DecidableEq

/-- Field `width` of a `Ship`. -/
def Ship.width (_ : Ship) : ℚ := shipWidth

/-- Field `height` of a `Ship`. -/
def Ship.height (_ : Ship) : ℚ := shipHeight

/-- Field `ySpeed` of a `Ship`. -/
def Ship.ySpeed (_ : Ship) : ℚ := 5

/-- The method `Ship.move`: `up` and `down` are `keyIsDown(UP_ARROW)` and
`keyIsDown(DOWN_ARROW)`, `height` is the canvas height. -/
def Ship.move (s : Ship) (height : ℚ) (up down : Bool) : Ship :=
  let bottom : Bool := decide (s.yPos + s.height ≥ height)
  let top : Bool := decide (s.yPos ≤ 0)
  if up && !top then
    { s with yPos := s.yPos - s.ySpeed }
  else if down && !bottom then
    { s with yPos := s.yPos + s.ySpeed }
  else
    s

/-- The method `Ship.display`: the vertices of the two `triangle` calls, in
order; the fill colours are left out. -/
def Ship.display (s : Ship) : List (List (ℚ × ℚ)) :=
  [[(s.xPos, s.yPos),
    (s.xPos + s.width, s.yPos + s.height / 2),
    (s.xPos, s.yPos + s.height)],
   [(s.xPos, s.yPos + s.height / 2),
    (s.xPos + s.width, s.yPos + s.height / 2),
    (s.xPos, s.yPos + s.height)]]

/-- The method `Ship.toArray`. -/
def Ship.toArray (s : Ship) : List (ℚ × ℚ) :=
  [(s.xPos, s.yPos),
   (s.xPos + s.width, s.yPos + s.height / 2),
   (s.xPos, s.yPos + s.height)]

/-- A bullet fired by the ship. -/
structure Bullet where
  xPos : ℚ
  yPos : ℚ
  deriving DecidableEq

/-- Field `height` of a `Bullet`. -/
def Bullet.height (_ : Bullet) : ℚ := 5

/-- Field `width` of a `Bullet`. -/
def Bullet.width (_ : Bullet) : ℚ := 20

/-- Field `xSpeed` of a `Bullet`. -/
def Bullet.xSpeed (_ : Bullet) : ℚ := 5

/-- The method `Bullet.move`. -/
def Bullet.move (b : Bullet) : Bullet :=
  { b with xPos := b.xPos + b.xSpeed }

/-- An enemy ship. -/
structure Enemy where
  xPos : ℚ
  yPos : ℚ
  deriving DecidableEq

/-- Field `width` of an `Enemy`. -/
def Enemy.width (_ : Enemy) : ℚ := shipWidth

/-- Field `height` of an `Enemy`. -/
def Enemy.height (_ : Enemy) : ℚ := shipHeight

/-- Field `xSpeed` of an `Enemy`. -/
def Enemy.xSpeed (_ : Enemy) : ℚ := 2

/-- The method `Enemy.move`. -/
def Enemy.move (e : Enemy) : Enemy :=
  { e with xPos := e.xPos - e.xSpeed }

/-- The method `Enemy.display`: the vertices of the two `triangle` calls, in
order; the fill colours are left out. -/
def Enemy.display (e : Enemy) : List (List (ℚ × ℚ)) :=
  [[(e.xPos + e.width, e.yPos),
    (e.xPos, e.yPos + e.height / 2),
    (e.xPos + e.width, e.yPos + e.height)],
   [(e.xPos + e.width, e.yPos + e.height / 2),
    (e.xPos, e.yPos + e.height / 2),
    (e.xPos + e.width, e.yPos + e.height)]]

/-- The method `Enemy.toArray`. -/
def Enemy.toArray (e : Enemy) : List (ℚ × ℚ) :=
  [(e.xPos, e.yPos),
   (e.xPos + e.width, e.yPos + e.height / 2),
   (e.xPos, e.yPos + e.height)]

/-! ## The globals -/

/-- The global variables of the sketch.  `bullets` and `targets` are the
`system` arrays of the two collections. -/
structure Game where
  s : Ship
  bullets : List Bullet
  targets : List Enemy
  life : Int
  score : Int
  timer : ℚ
  diff : ℚ
  playing : Bool
  loss : Bool
  highScore : Int
  deriving DecidableEq

/-- The canvas size, `width` and `height` of p5.js. -/
structure Canvas where
  width : ℚ
  height : ℚ
  deriving DecidableEq

/-- What the environment supplies to one call of `draw`: the arrow keys held,
the mouse, and the value `random(0, height - shipHeight)` would return. -/
structure Input where
  up : Bool
  down : Bool
  mouseIsPressed : Bool
  mouseX : ℚ
  mouseY : ℚ
  rand : ℚ
  deriving DecidableEq

/-- The type of the library test `collideRectPoly(x, y, w, h, poly)`. -/
abbrev Collide := ℚ → ℚ → ℚ → ℚ → List (ℚ × ℚ) → Bool

/-! ## Bullet system -/

/-- The method `BulletSystem.add`. -/
def BulletSystem.add (system : List Bullet) (newBullet : Bullet) : List Bullet :=
  system ++ [newBullet]

/-- The method `BulletSystem.remove`: `splice(index, 1)`. -/
def BulletSystem.remove (system : List Bullet) (index : Nat) : List Bullet :=
  system.eraseIdx index

/-- The method `TargetSystem.add`. -/
def TargetSystem.add (system : List Enemy) (newEnemy : Enemy) : List Enemy :=
  system ++ [newEnemy]

/-- The method `TargetSystem.remove`: `splice(index, 1)`. -/
def TargetSystem.remove (system : List Enemy) (index : Nat) : List Enemy :=
  system.eraseIdx index

/-- The inner `for (var j = 0; j < targets.system.length; j++)` loop of
`BulletSystem.update`, entered at index `j` for the moved bullet `b` that was
read at index `i`.  There is no `break`: after a hit the loop goes on. -/
def BulletSystem.updateInner (collide : Collide) (b : Bullet) (i : Nat)
    (j : Nat) (g : Game) : Game :=
  if h : j < g.targets.length then
    let t := g.targets[j]
    if collide b.xPos b.yPos b.width b.height t.toArray then
      BulletSystem.updateInner collide b i (j + 1)
        { g with
          bullets := BulletSystem.remove g.bullets i
          targets := TargetSystem.remove g.targets j
          score := g.score + 5 }
    else
      BulletSystem.updateInner collide b i (j + 1) g
  else
    g
termination_by g.targets.length - j
decreasing_by
  all_goals simp_wf
  · simp only [TargetSystem.remove, List.length_eraseIdx, h, if_true]
    omega
  · omega

/-- The outer `for (var i = 0; i < this.system.length; i++)` loop of
`BulletSystem.update`, entered at index `i`; `width` is the canvas width.
`b.move()` mutates the bullet stored at index `i`. -/
def BulletSystem.updateLoop (collide : Collide) (width : ℚ) (i : Nat) (g : Game) : Game :=
  if h : i < g.bullets.length then
    let b := (g.bullets[i]).move
    let g1 : Game := { g with bullets := g.bullets.set i b }
    if b.xPos > width then
      BulletSystem.updateLoop collide width (i + 1)
        { g1 with bullets := BulletSystem.remove g1.bullets i }
    else
      BulletSystem.updateLoop collide width (i + 1)
        (BulletSystem.updateInner collide b i 0 g1)
  else
    g
termination_by g.bullets.length - i
decreasing_by
  all_goals simp_wf
  · simp only [BulletSystem.remove, List.length_eraseIdx, List.length_set, h, if_true]
    omega
  · have key : ∀ (n j : Nat) (g0 : Game), g0.targets.length - j ≤ n →
        (BulletSystem.updateInner collide (g.bullets[i]).move i j g0).bullets.length
          ≤ g0.bullets.length := by
      intro n
      induction n with
      | zero =>
        intro j g0 hn
        rw [BulletSystem.updateInner]
        have hj : ¬ j < g0.targets.length := by omega
        simp [hj]
      | succ n ih =>
        intro j g0 hn
        rw [BulletSystem.updateInner]
        by_cases hj : j < g0.targets.length
        · simp only [hj, dite_true]
          split
          · refine le_trans (ih _ _ ?_) ?_
            · simp only [TargetSystem.remove, List.length_eraseIdx, hj, if_true]
              omega
            · simp only [BulletSystem.remove, List.length_eraseIdx]
              split <;> omega
          · exact ih _ _ (by omega)
        · simp [hj]
    have h1 := key _ 0 { g with bullets := g.bullets.set i (g.bullets[i]).move } le_rfl
    simp only [List.length_set] at h1
    omega

/-- The method `BulletSystem.update`. -/
def BulletSystem.update (collide : Collide) (width : ℚ) (g : Game) : Game :=
  BulletSystem.updateLoop collide width 0 g

/-! ## Target system -/

/-- The `for (var i = 0; i < this.system.length; i++)` loop of
`TargetSystem.update`, entered at index `i`.  `b.move()` mutates the enemy
stored at index `i`. -/
def TargetSystem.updateLoop (i : Nat) (g : Game) : Game :=
  if h : i < g.targets.length then
    let b := g.targets[i]
    if b.xPos > 0 then
      TargetSystem.updateLoop (i + 1) { g with targets := g.targets.set i b.move }
    else
      TargetSystem.updateLoop (i + 1)
        { g with targets := TargetSystem.remove g.targets i, life := g.life - 1 }
  else
    g
termination_by g.targets.length - i
decreasing_by
  all_goals simp_wf
  · omega
  · simp only [TargetSystem.remove, List.length_eraseIdx, h, if_true]
    omega

/-- The method `TargetSystem.update`. -/
def TargetSystem.update (g : Game) : Game :=
  TargetSystem.updateLoop 0 g

/-! ## Round controller -/

/-- Modelled from the spec: the p5.js library function `map` is not under
`src/`; the spec describes its use as a linear map from the score range
`[0, 1,000,000]` to the increment range `[0.01, 0.5]`, without clamping. -/
def p5map (n start1 stop1 start2 stop2 : ℚ) : ℚ :=
  (n - start1) / (stop1 - start1) * (stop2 - start2) + start2

/-- The function `setup`, run on the initial values of the globals
(`playing = true`, `loss = false`, `highScore = 0`, both collections empty). -/
def setup (c : Canvas) : Game :=
  { s := ⟨50, c.height / 2⟩
    bullets := []
    targets := TargetSystem.add [] ⟨c.width - 50 - shipWidth, c.height / 2⟩
    life := 5
    score := 0
    timer := 0
    diff := 1 / 10
    playing := true
    loss := false
    highScore := 0 }

/-- The function `keyPressed`, for the key code `keyCode`. -/
def keyPressed (keyCode : Nat) (g : Game) : Game :=
  if keyCode = 32 && g.playing then
    let b1 : Bullet := ⟨g.s.xPos + g.s.width, g.s.yPos + g.s.height / 2⟩
    { g with bullets := BulletSystem.add g.bullets b1 }
  else if keyCode = RETURN then
    { g with playing := !g.playing }
  else
    g

/-- The function `addEnemy`; `y` is the value returned by
`random(0, height - shipHeight)`. -/
def addEnemy (c : Canvas) (y : ℚ) (g : Game) : Game :=
  if g.timer ≥ 1 then
    { g with targets := TargetSystem.add g.targets ⟨c.width, y⟩, timer := 0 }
  else
    g

/-- The function `gameOver`. -/
def gameOver (g : Game) : Game :=
  if g.life ≤ 0 then
    let g1 : Game := { g with loss := true }
    if g1.score > g1.highScore then
      { g1 with highScore := g1.score }
    else
      g1
  else
    g

/-- The function `resetGame`. -/
def resetGame (c : Canvas) (g : Game) : Game :=
  { g with
    s := ⟨50, c.height / 2⟩
    life := 5
    score := 0
    timer := 0
    targets := []
    bullets := []
    loss := false
    playing := true }

/-- The function `displayEnd`: apart from drawing, the Play Again click test. -/
def displayEnd (c : Canvas) (inp : Input) (g : Game) : Game :=
  if inp.mouseIsPressed &&
      (decide (inp.mouseX > c.width / 2 - 50) && decide (inp.mouseX < c.width / 2 + 50)) &&
      (decide (inp.mouseY > c.height / 2 + 85) && decide (inp.mouseY < c.height / 2 + 115)) then
    resetGame c g
  else
    g

/-- The function `draw`: one frame.  The drawing calls have no effect on the
globals and are left out. -/
def draw (collide : Collide) (c : Canvas) (inp : Input) (g : Game) : Game :=
  if g.playing && !g.loss then
    let g1 : Game := { g with s := g.s.move c.height inp.up inp.down }
    let g2 := BulletSystem.update collide c.width g1
    let g3 := TargetSystem.update g2
    let g4 := gameOver g3
    let g5 := addEnemy c inp.rand g4
    let g6 : Game := { g5 with timer := g5.timer + g5.diff }
    { g6 with diff := p5map g6.score 0 1000000 (1 / 100) (1 / 2) }
  else if g.loss then
    displayEnd c inp g
  else
    g


/-! ## Traces of the sketch

p5.js calls `setup` once and then `draw` once per frame and `keyPressed` once
per key press, one after the other. -/

/-- One call made by p5.js after `setup`: a frame or a key press. -/
inductive Event where
  | frame (inp : Input)
  | key (keyCode : Nat)
  deriving DecidableEq

/-- The effect of one event on the globals. -/
def step (collide : Collide) (c : Canvas) (g : Game) : Event → Game
  | Event.frame inp => draw collide c inp g
  | Event.key keyCode => keyPressed keyCode g

/-- The globals after a sequence of events, from the globals `g`. -/
def run (collide : Collide) (c : Canvas) (g : Game) (evs : List Event) : Game :=
  evs.foldl (step collide c) g

/-- The final scores of the rounds that end during a sequence of events, in
order: a round ends at the event that turns `loss` from false to true, and its
final score is the score at that moment. -/
def roundsEnded (collide : Collide) (c : Canvas) : Game → List Event → List Int
  | _, [] => []
  | g, e :: evs =>
    (if !g.loss && (step collide c g e).loss then [(step collide c g e).score] else [])
      ++ roundsEnded collide c (step collide c g e) evs

/-- The states the sketch can be in: `setup`, then any sequence of frames, key
presses and calls of `resetGame`. -/
inductive Reachable (collide : Collide) (c : Canvas) : Game → Prop
  | setup : Reachable collide c (setup c)
  | draw (inp : Input) (g : Game) :
      Reachable collide c g → Reachable collide c (draw collide c inp g)
  | keyPressed (keyCode : Nat) (g : Game) :
      Reachable collide c g → Reachable collide c (keyPressed keyCode g)
  | resetGame (g : Game) :
      Reachable collide c g → Reachable collide c (resetGame c g)

/-! ## Notions used to state what the enemy pass does -/

/-- The enemies left by the loop of `TargetSystem.update` out of the enemies it
has not reached yet: an enemy with `xPos > 0` is moved; an enemy with
`xPos ≤ 0` is removed and the enemy after it is passed over. -/
def TargetSystem.sweep : List Enemy → List Enemy
  | [] => []
  | [e] => if e.xPos > 0 then [e.move] else []
  | e :: e2 :: rest =>
    if e.xPos > 0 then e.move :: TargetSystem.sweep (e2 :: rest)
    else e2 :: TargetSystem.sweep rest

/-- The number of enemies the loop of `TargetSystem.update` removes out of the
enemies it has not reached yet. -/
def TargetSystem.breaches : List Enemy → Nat
  | [] => 0
  | [e] => if e.xPos > 0 then 0 else 1
  | e :: e2 :: rest =>
    if e.xPos > 0 then TargetSystem.breaches (e2 :: rest)
    else TargetSystem.breaches rest + 1

/-- The relation `Pruned before after`: the list `after` is `before` with some
enemies removed, every removed enemy having `xPos ≤ 0`; the other enemies stay
in order, each unchanged or, when its `xPos > 0`, moved by `Enemy.move`. -/
inductive TargetSystem.Pruned : List Enemy → List Enemy → Prop
  | nil : TargetSystem.Pruned [] []
  | removed (e : Enemy) (es es1 : List Enemy) :
      e.xPos ≤ 0 → TargetSystem.Pruned es es1 → TargetSystem.Pruned (e :: es) es1
  | kept (e : Enemy) (es es1 : List Enemy) :
      TargetSystem.Pruned es es1 → TargetSystem.Pruned (e :: es) (e :: es1)
  | moved (e : Enemy) (es es1 : List Enemy) :
      e.xPos > 0 → TargetSystem.Pruned es es1 → TargetSystem.Pruned (e :: es) (e.move :: es1)

/-! ## Notions used to state what a frame does -/

/-- The click test of `displayEnd`: the mouse is pressed strictly inside the
Play Again box. -/
def playAgain (c : Canvas) (inp : Input) : Bool :=
  inp.mouseIsPressed &&
    (decide (inp.mouseX > c.width / 2 - 50) && decide (inp.mouseX < c.width / 2 + 50)) &&
    (decide (inp.mouseY > c.height / 2 + 85) && decide (inp.mouseY < c.height / 2 + 115))

/-- Whether an event is a frame with a click in the Play Again box. -/
def Event.clicksPlayAgain (c : Canvas) : Event → Bool
  | Event.frame inp => playAgain c inp
  | Event.key _ => false

/-- The largest element of a list of scores, 0 for the empty list. -/
def maxScore (l : List Int) : Int :=
  l.foldr max 0

/-- The globals after the two passes of an active frame: `s.move()`,
`bullets.update()`, `targets.update()`. -/
def afterPasses (collide : Collide) (c : Canvas) (inp : Input) (g : Game) : Game :=
  TargetSystem.update
    (BulletSystem.update collide c.width { g with s := g.s.move c.height inp.up inp.down })

/-! ## A complete losing game, used as an example

On a canvas two pixels wide every enemy reaches the left edge two frames after
it is spawned; with no key pressed the player loses the five lives. -/

/-- A canvas two pixels wide. -/
def narrowCanvas : Canvas := ⟨2, 480⟩

/-- The input of a frame in which no key is held and the mouse is not pressed. -/
def idleInput : Input := ⟨false, false, false, 0, 0, 0⟩

/-- The globals on `narrowCanvas` between two enemies: no bullet, no enemy,
score 0, the round being played. -/
def idleGame (life : Int) (timer : ℚ) : Game :=
  { s := ⟨50, 240⟩, bullets := [], targets := [], life := life, score := 0,
    timer := timer, diff := 1 / 100, playing := true, loss := false, highScore := 0 }

/-- The globals on `narrowCanvas` once the five lives are lost. -/
def lostGame : Game :=
  { s := ⟨50, 240⟩, bullets := [], targets := [], life := 0, score := 0,
    timer := 3 / 100, diff := 1 / 100, playing := true, loss := true, highScore := 0 }

/-- The frames of the losing game: 394 frames with `idleInput`. -/
def losingFrames : List Event :=
  List.replicate 394 (Event.frame idleInput)

/-! ## Marching order of the enemies -/

/-- The enemy list `l` is in marching order on a canvas of width `w`: no enemy
is right of `w`; positions do not decrease along the list; from the second
enemy on each enemy is at least 2 right of the one before and right of `-2`. -/
def Lined (w : ℚ) (l : List Enemy) : Prop :=
  (∀ e ∈ l, e.xPos ≤ w)
  ∧ l.Pairwise (fun a b => a.xPos ≤ b.xPos)
  ∧ l.tail.Pairwise (fun a b => a.xPos + 2 ≤ b.xPos)
  ∧ (∀ e ∈ l.tail, -2 < e.xPos)

/-- Marching order just after the enemy pass: moreover every enemy from the
second on is at least 2 left of `w`, and `-2 < w` unless the list is empty. -/
def LinedAfterPass (w : ℚ) (l : List Enemy) : Prop :=
  Lined w l ∧ (∀ e ∈ l.tail, e.xPos + 2 ≤ w) ∧ (l ≠ [] → -2 < w)

/-! ## Lemmas on lists -/

theorem eraseIdx_length_append {α : Type} (pre : List α) (e : α) (es : List α) :
    (pre ++ e :: es).eraseIdx pre.length = pre ++ es := by
  induction pre with
  | nil => rfl
  | cons a pre ih => simpa using ih

theorem getElem_length_append {α : Type} (pre : List α) (e : α) (es : List α)
    (h : pre.length < (pre ++ e :: es).length) :
    (pre ++ e :: es)[pre.length] = e := by
  induction pre with
  | nil => rfl
  | cons a pre ih => simpa using ih (by simp)

theorem set_length_append {α : Type} (pre : List α) (e x : α) (es : List α) :
    (pre ++ e :: es).set pre.length x = pre ++ x :: es := by
  induction pre with
  | nil => rfl
  | cons a pre ih => simp [ih]

theorem eraseIdx_set_same {α : Type} (l : List α) (i : Nat) (x : α) :
    (l.set i x).eraseIdx i = l.eraseIdx i := by
  induction l generalizing i with
  | nil => rfl
  | cons a l ih =>
    cases i with
    | zero => rfl
    | succ i => simp [ih]

theorem TargetSystem.enemyLoop_done (i : Nat) (g : Game) (h : g.targets.length ≤ i) :
    TargetSystem.updateLoop i g = g := by
  rw [TargetSystem.updateLoop]
  simp [Nat.not_lt.mpr h]

theorem TargetSystem.updateLoop_append (n : Nat) :
    ∀ (post pre : List Enemy) (g : Game), post.length ≤ n → g.targets = pre ++ post →
      TargetSystem.updateLoop pre.length g =
        { g with targets := pre ++ TargetSystem.sweep post,
                 life := g.life - (TargetSystem.breaches post : Int) } := by
  induction n using Nat.strong_induction_on with
  | _ n ih =>
    intro post pre g hn hg
    match post, hn, hg with
    | [], _, hg =>
      rw [TargetSystem.enemyLoop_done _ _ (by simp [hg])]
      simp [TargetSystem.sweep, TargetSystem.breaches, ← hg]
    | [e], hn, hg =>
      rw [TargetSystem.updateLoop]
      have hlt : pre.length < g.targets.length := by simp [hg]
      have hget : g.targets[pre.length] = e := by
        simp only [hg]; exact getElem_length_append _ _ _ _
      simp only [hlt, dite_true, hget]
      by_cases hx : e.xPos > 0
      · simp only [hx, if_true, TargetSystem.sweep, TargetSystem.breaches]
        rw [TargetSystem.enemyLoop_done _ _ (by simp [hg])]
        simp [hg]
      · simp only [hx, if_false, TargetSystem.sweep, TargetSystem.breaches]
        rw [TargetSystem.enemyLoop_done _ _
          (by simp [hg, TargetSystem.remove, eraseIdx_length_append])]
        simp [hg, TargetSystem.remove, eraseIdx_length_append]
    | e :: e2 :: rest, hn, hg =>
      rw [TargetSystem.updateLoop]
      have hlt : pre.length < g.targets.length := by simp [hg]
      have hget : g.targets[pre.length] = e := by
        simp only [hg]; exact getElem_length_append _ _ _ _
      simp only [hlt, dite_true, hget]
      by_cases hx : e.xPos > 0
      · simp only [hx, if_true, TargetSystem.sweep, TargetSystem.breaches]
        have := ih (n - 1) (by simp at hn; omega) (e2 :: rest) (pre ++ [e.move])
          { g with targets := g.targets.set pre.length e.move } (by simp at hn ⊢; omega)
          (by simp [hg, set_length_append])
        simp only [List.length_append, List.length_singleton] at this
        rw [this]
        simp
      · simp only [hx, if_false, TargetSystem.sweep, TargetSystem.breaches]
        have := ih (n - 1) (by simp at hn; omega) rest (pre ++ [e2])
          { g with targets := TargetSystem.remove g.targets pre.length, life := g.life - 1 }
          (by simp at hn ⊢; omega)
          (by simp [hg, TargetSystem.remove, eraseIdx_length_append])
        simp only [List.length_append, List.length_singleton] at this
        rw [this]
        simp
        omega

/-! ## Lemmas on the bullet pass -/

theorem BulletSystem.updateInner_spec (collide : Collide) (b : Bullet) (i j : Nat) (g : Game) :
    (BulletSystem.updateInner collide b i j g).score
        + 5 * ((BulletSystem.updateInner collide b i j g).targets.length : Int)
      = g.score + 5 * (g.targets.length : Int)
    ∧ (BulletSystem.updateInner collide b i j g).targets.length ≤ g.targets.length
    ∧ (BulletSystem.updateInner collide b i j g).bullets.length ≤ g.bullets.length
    ∧ BulletSystem.updateInner collide b i j g =
        { g with bullets := (BulletSystem.updateInner collide b i j g).bullets,
                 targets := (BulletSystem.updateInner collide b i j g).targets,
                 score := (BulletSystem.updateInner collide b i j g).score } := by
  induction j, g using BulletSystem.updateInner.induct collide b i with
  | case1 j g h t hc ih =>
    rw [BulletSystem.updateInner]
    simp only [h, dite_true, hc, if_true]
    obtain ⟨h1, h2, h3, h4⟩ := ih
    have hl : (TargetSystem.remove g.targets j).length + 1 = g.targets.length := by
      simp only [TargetSystem.remove, List.length_eraseIdx, h, if_true]
      omega
    have hb : (BulletSystem.remove g.bullets i).length ≤ g.bullets.length := by
      simp only [BulletSystem.remove, List.length_eraseIdx]
      split <;> omega
    dsimp only at h1 h2 h3
    refine ⟨by omega, by omega, by omega, ?_⟩
    rw [h4]
  | case2 j g h t hc ih =>
    rw [BulletSystem.updateInner]
    simp only [h, dite_true, hc]
    exact ih
  | case3 j g h =>
    rw [BulletSystem.updateInner]
    simp [h]

/-! ## Lemmas on the two passes -/

theorem BulletSystem.updateLoop_spec (collide : Collide) (width : ℚ) (i : Nat) (g : Game) :
    (BulletSystem.updateLoop collide width i g).score
        + 5 * ((BulletSystem.updateLoop collide width i g).targets.length : Int)
      = g.score + 5 * (g.targets.length : Int)
    ∧ (BulletSystem.updateLoop collide width i g).targets.length ≤ g.targets.length
    ∧ BulletSystem.updateLoop collide width i g =
        { g with bullets := (BulletSystem.updateLoop collide width i g).bullets,
                 targets := (BulletSystem.updateLoop collide width i g).targets,
                 score := (BulletSystem.updateLoop collide width i g).score } := by
  induction i, g using BulletSystem.updateLoop.induct collide width with
  | case1 i g h b g1 hx ih =>
    rw [BulletSystem.updateLoop]
    simp only [h, dite_true]
    rw [if_pos hx]
    obtain ⟨h1, h2, h3⟩ := ih
    simp only [b, g1] at h1 h2 h3 hx
    refine ⟨by omega, by omega, ?_⟩
    rw [h3]
  | case2 i g h b g1 hx ih =>
    rw [BulletSystem.updateLoop]
    simp only [h, dite_true]
    rw [if_neg hx]
    obtain ⟨h1, h2, h3⟩ := ih
    obtain ⟨k1, k2, _, k4⟩ := BulletSystem.updateInner_spec collide b i 0 g1
    simp only [b, g1] at h1 h2 h3 k1 k2 k4 hx
    refine ⟨by omega, by omega, ?_⟩
    rw [h3, k4]
  | case3 i g h =>
    rw [BulletSystem.updateLoop]
    simp [h]

theorem BulletSystem.update_spec (collide : Collide) (width : ℚ) (g : Game) :
    (BulletSystem.update collide width g).score
        + 5 * ((BulletSystem.update collide width g).targets.length : Int)
      = g.score + 5 * (g.targets.length : Int)
    ∧ (BulletSystem.update collide width g).targets.length ≤ g.targets.length
    ∧ BulletSystem.update collide width g =
        { g with bullets := (BulletSystem.update collide width g).bullets,
                 targets := (BulletSystem.update collide width g).targets,
                 score := (BulletSystem.update collide width g).score } :=
  BulletSystem.updateLoop_spec collide width 0 g

theorem BulletSystem.update_score_le (collide : Collide) (width : ℚ) (g : Game) :
    g.score ≤ (BulletSystem.update collide width g).score := by
  obtain ⟨h1, h2, _⟩ := BulletSystem.update_spec collide width g
  omega

theorem TargetSystem.update_eq (g : Game) :
    TargetSystem.update g =
      { g with targets := TargetSystem.sweep g.targets,
               life := g.life - (TargetSystem.breaches g.targets : Int) } := by
  have := TargetSystem.updateLoop_append g.targets.length g.targets [] g le_rfl rfl
  simpa [TargetSystem.update] using this

theorem TargetSystem.sweep_pruned (n : Nat) :
    ∀ es : List Enemy, es.length ≤ n → TargetSystem.Pruned es (TargetSystem.sweep es) := by
  induction n using Nat.strong_induction_on with
  | _ n ih =>
    intro es hn
    match es, hn with
    | [], _ => exact TargetSystem.Pruned.nil
    | [e], _ =>
      by_cases hx : e.xPos > 0
      · simp only [TargetSystem.sweep, hx, if_true]
        exact TargetSystem.Pruned.moved e [] [] hx TargetSystem.Pruned.nil
      · simp only [TargetSystem.sweep, hx, if_false]
        exact TargetSystem.Pruned.removed e [] [] (not_lt.mp hx) TargetSystem.Pruned.nil
    | e :: e2 :: rest, hn =>
      simp only [List.length_cons] at hn
      by_cases hx : e.xPos > 0
      · simp only [TargetSystem.sweep, hx, if_true]
        exact TargetSystem.Pruned.moved e _ _ hx
          (ih (n - 1) (by omega) (e2 :: rest) (by simp only [List.length_cons]; omega))
      · simp only [TargetSystem.sweep, hx, if_false]
        exact TargetSystem.Pruned.removed e _ _ (not_lt.mp hx)
          (TargetSystem.Pruned.kept e2 _ _ (ih (n - 2) (by omega) rest (by omega)))

theorem TargetSystem.breaches_add_length (n : Nat) :
    ∀ es : List Enemy, es.length ≤ n →
      TargetSystem.breaches es + (TargetSystem.sweep es).length = es.length := by
  induction n using Nat.strong_induction_on with
  | _ n ih =>
    intro es hn
    match es, hn with
    | [], _ => rfl
    | [e], _ =>
      by_cases hx : e.xPos > 0
      · simp [TargetSystem.sweep, TargetSystem.breaches, hx]
      · simp [TargetSystem.sweep, TargetSystem.breaches, hx]
    | e :: e2 :: rest, hn =>
      simp only [List.length_cons] at hn
      by_cases hx : e.xPos > 0
      · have := ih (n - 1) (by omega) (e2 :: rest) (by simp only [List.length_cons]; omega)
        simp only [TargetSystem.sweep, TargetSystem.breaches, hx, if_true, List.length_cons] at this ⊢
        omega
      · have := ih (n - 2) (by omega) rest (by omega)
        simp only [TargetSystem.sweep, TargetSystem.breaches, hx, if_false, List.length_cons]
        omega

/-! ## One iteration of each loop -/

theorem BulletSystem.updateInner_done (collide : Collide) (b : Bullet) (i j : Nat) (g : Game)
    (h : g.targets.length ≤ j) :
    BulletSystem.updateInner collide b i j g = g := by
  rw [BulletSystem.updateInner]
  simp [Nat.not_lt.mpr h]

theorem BulletSystem.updateInner_hit (collide : Collide) (b : Bullet) (i j : Nat) (g : Game)
    (h : j < g.targets.length)
    (hc : collide b.xPos b.yPos b.width b.height (g.targets[j]).toArray = true) :
    BulletSystem.updateInner collide b i j g =
      BulletSystem.updateInner collide b i (j + 1)
        { g with
          bullets := BulletSystem.remove g.bullets i
          targets := TargetSystem.remove g.targets j
          score := g.score + 5 } := by
  rw [BulletSystem.updateInner]
  simp [h, hc]

theorem BulletSystem.updateInner_miss (collide : Collide) (b : Bullet) (i j : Nat) (g : Game)
    (h : j < g.targets.length)
    (hc : collide b.xPos b.yPos b.width b.height (g.targets[j]).toArray = false) :
    BulletSystem.updateInner collide b i j g =
      BulletSystem.updateInner collide b i (j + 1) g := by
  rw [BulletSystem.updateInner]
  simp [h, hc]

theorem BulletSystem.updateLoop_done (collide : Collide) (width : ℚ) (i : Nat) (g : Game)
    (h : g.bullets.length ≤ i) :
    BulletSystem.updateLoop collide width i g = g := by
  rw [BulletSystem.updateLoop]
  simp [Nat.not_lt.mpr h]

theorem BulletSystem.updateLoop_exit (collide : Collide) (width : ℚ) (i : Nat) (g : Game)
    (h : i < g.bullets.length) (hx : (g.bullets[i]).move.xPos > width) :
    BulletSystem.updateLoop collide width i g =
      BulletSystem.updateLoop collide width (i + 1)
        { g with bullets := BulletSystem.remove (g.bullets.set i (g.bullets[i]).move) i } := by
  rw [BulletSystem.updateLoop]
  simp only [h, dite_true]
  rw [if_pos hx]

theorem BulletSystem.updateLoop_test (collide : Collide) (width : ℚ) (i : Nat) (g : Game)
    (h : i < g.bullets.length) (hx : (g.bullets[i]).move.xPos ≤ width) :
    BulletSystem.updateLoop collide width i g =
      BulletSystem.updateLoop collide width (i + 1)
        (BulletSystem.updateInner collide (g.bullets[i]).move i 0
          { g with bullets := g.bullets.set i (g.bullets[i]).move }) := by
  rw [BulletSystem.updateLoop]
  simp only [h, dite_true]
  rw [if_neg (not_lt.mpr hx)]

/-! ## Lemmas on the round controller -/

theorem displayEnd_eq (c : Canvas) (inp : Input) (g : Game) :
    displayEnd c inp g = if playAgain c inp then resetGame c g else g := rfl

theorem draw_loss (collide : Collide) (c : Canvas) (inp : Input) (g : Game)
    (hl : g.loss = true) :
    draw collide c inp g = if playAgain c inp then resetGame c g else g := by
  simp [draw, hl, displayEnd_eq]

theorem draw_paused (collide : Collide) (c : Canvas) (inp : Input) (g : Game)
    (hp : g.playing = false) (hl : g.loss = false) :
    draw collide c inp g = g := by
  simp [draw, hl, hp]

theorem draw_active (collide : Collide) (c : Canvas) (inp : Input) (g : Game)
    (hp : g.playing = true) (hl : g.loss = false) :
    draw collide c inp g =
      { addEnemy c inp.rand (gameOver (afterPasses collide c inp g)) with
        timer := (addEnemy c inp.rand (gameOver (afterPasses collide c inp g))).timer
                  + (addEnemy c inp.rand (gameOver (afterPasses collide c inp g))).diff
        diff := p5map (addEnemy c inp.rand (gameOver (afterPasses collide c inp g))).score
                  0 1000000 (1 / 100) (1 / 2) } := by
  simp [draw, hl, hp, afterPasses]

theorem afterPasses_fields (collide : Collide) (c : Canvas) (inp : Input) (g : Game) :
    (afterPasses collide c inp g).playing = g.playing
    ∧ (afterPasses collide c inp g).loss = g.loss
    ∧ (afterPasses collide c inp g).highScore = g.highScore
    ∧ (afterPasses collide c inp g).diff = g.diff
    ∧ (afterPasses collide c inp g).timer = g.timer
    ∧ g.score ≤ (afterPasses collide c inp g).score := by
  obtain ⟨h1, h2, h3⟩ := BulletSystem.update_spec collide c.width
    { g with s := g.s.move c.height inp.up inp.down }
  have hs := BulletSystem.update_score_le collide c.width
    { g with s := g.s.move c.height inp.up inp.down }
  unfold afterPasses
  rw [TargetSystem.update_eq]
  dsimp only at hs ⊢
  refine ⟨?_, ?_, ?_, ?_, ?_, hs⟩
  · rw [h3]
  · rw [h3]
  · rw [h3]
  · rw [h3]
  · rw [h3]

theorem gameOver_fields (g : Game) :
    (gameOver g).life = g.life ∧ (gameOver g).score = g.score
    ∧ (gameOver g).playing = g.playing
    ∧ (gameOver g).loss = (g.loss || decide (g.life ≤ 0))
    ∧ (gameOver g).highScore = if g.life ≤ 0 then max g.highScore g.score else g.highScore := by
  unfold gameOver
  by_cases h : g.life ≤ 0
  · by_cases h2 : g.score > g.highScore
    · simp [h, h2, max_eq_right (le_of_lt h2)]
    · simp [h, h2, max_eq_left (not_lt.mp h2)]
  · simp [h]

theorem addEnemy_fields (c : Canvas) (y : ℚ) (g : Game) :
    (addEnemy c y g).life = g.life ∧ (addEnemy c y g).score = g.score
    ∧ (addEnemy c y g).playing = g.playing ∧ (addEnemy c y g).loss = g.loss
    ∧ (addEnemy c y g).highScore = g.highScore ∧ (addEnemy c y g).diff = g.diff := by
  unfold addEnemy
  split <;> simp

/-- The counters at the end of an active frame. -/
theorem draw_active_fields (collide : Collide) (c : Canvas) (inp : Input) (g : Game)
    (hp : g.playing = true) (hl : g.loss = false) :
    (draw collide c inp g).life = (afterPasses collide c inp g).life
    ∧ (draw collide c inp g).score = (afterPasses collide c inp g).score
    ∧ (draw collide c inp g).playing = true
    ∧ (draw collide c inp g).loss = decide ((afterPasses collide c inp g).life ≤ 0)
    ∧ (draw collide c inp g).highScore =
        (if (afterPasses collide c inp g).life ≤ 0
          then max g.highScore (afterPasses collide c inp g).score else g.highScore)
    ∧ (draw collide c inp g).diff =
        p5map (afterPasses collide c inp g).score 0 1000000 (1 / 100) (1 / 2) := by
  obtain ⟨a1, a2, a3, a4, a5, a6⟩ := addEnemy_fields c inp.rand
    (gameOver (afterPasses collide c inp g))
  obtain ⟨b1, b2, b3, b4, b5⟩ := gameOver_fields (afterPasses collide c inp g)
  obtain ⟨p1, p2, p3, _, _, _⟩ := afterPasses_fields collide c inp g
  rw [draw_active collide c inp g hp hl]
  dsimp only
  rw [a1, a2, a3, a4, a5, b1, b2, b3, b4, b5, p1, p2, p3, hp, hl]
  simp

theorem keyPressed_fields (keyCode : Nat) (g : Game) :
    (keyPressed keyCode g).life = g.life ∧ (keyPressed keyCode g).score = g.score
    ∧ (keyPressed keyCode g).loss = g.loss
    ∧ (keyPressed keyCode g).highScore = g.highScore := by
  unfold keyPressed
  split
  · simp
  · split <;> simp

theorem run_nil (collide : Collide) (c : Canvas) (g : Game) :
    run collide c g [] = g := rfl

theorem run_cons (collide : Collide) (c : Canvas) (g : Game) (e : Event) (evs : List Event) :
    run collide c g (e :: evs) = run collide c (step collide c g e) evs := rfl

theorem run_append (collide : Collide) (c : Canvas) (g : Game) (evs1 evs2 : List Event) :
    run collide c g (evs1 ++ evs2) = run collide c (run collide c g evs1) evs2 := by
  simp [run, List.foldl_append]

theorem reachable_step (collide : Collide) (c : Canvas) (g : Game) (e : Event)
    (h : Reachable collide c g) : Reachable collide c (step collide c g e) := by
  cases e with
  | frame inp => exact Reachable.draw inp g h
  | key k => exact Reachable.keyPressed k g h

theorem reachable_run (collide : Collide) (c : Canvas) (evs : List Event) :
    ∀ g : Game, Reachable collide c g → Reachable collide c (run collide c g evs) := by
  induction evs with
  | nil => intro g h; exact h
  | cons e evs ih => intro g h; exact ih _ (reachable_step collide c g e h)

/-- What one event does to `loss`, `highScore` and `score`. -/
theorem step_summary (collide : Collide) (c : Canvas) (g : Game) (e : Event) :
    ((g.loss = false ∧ (step collide c g e).loss = true) →
        (step collide c g e).highScore = max g.highScore (step collide c g e).score)
    ∧ (¬ (g.loss = false ∧ (step collide c g e).loss = true) →
        (step collide c g e).highScore = g.highScore)
    ∧ (0 ≤ g.score → 0 ≤ (step collide c g e).score)
    ∧ (g.loss = true → Event.clicksPlayAgain c e = false → (step collide c g e).loss = true) := by
  cases e with
  | key k =>
    obtain ⟨_, h2, h3, h4⟩ := keyPressed_fields k g
    refine ⟨?_, fun _ => h4, fun h => by simpa only [step, h2] using h,
      fun h _ => by simpa only [step, h3] using h⟩
    rintro ⟨ha, hb⟩
    simp only [step, h3, ha] at hb
    exact absurd hb (by simp)
  | frame inp =>
    simp only [step, Event.clicksPlayAgain]
    cases hl : g.loss with
    | true =>
      rw [draw_loss collide c inp g hl]
      refine ⟨fun h => absurd h.1 (by simp), ?_, ?_, ?_⟩
      · intro _; split <;> rfl
      · intro h; split
        · exact le_rfl
        · exact h
      · intro _ hc; simp [hc, hl]
    | false =>
      cases hp : g.playing with
      | false =>
        rw [draw_paused collide c inp g hp hl]
        refine ⟨fun h => ?_, fun _ => rfl, fun h => h, fun h => absurd h (by simp)⟩
        rw [hl] at h
        exact absurd h.2 (by simp)
      | true =>
        obtain ⟨_, d2, _, d4, d5, _⟩ := draw_active_fields collide c inp g hp hl
        obtain ⟨_, _, _, _, _, p6⟩ := afterPasses_fields collide c inp g
        rw [d2, d4, d5]
        refine ⟨?_, ?_, fun h => le_trans h p6, fun h => absurd h (by simp)⟩
        · rintro ⟨_, h⟩
          rw [if_pos (by simpa using h)]
        · intro h
          rw [if_neg]
          intro hle
          exact h ⟨rfl, by simpa using hle⟩

theorem reachable_invariant (collide : Collide) (c : Canvas) (g : Game)
    (h : Reachable collide c g) :
    (g.life ≤ 0 → g.loss = true) ∧ (g.loss = true → g.score ≤ g.highScore)
    ∧ 0 ≤ g.score ∧ 0 ≤ g.highScore := by
  induction h with
  | setup => simp [setup]
  | resetGame g _ ih =>
    obtain ⟨_, _, _, i4⟩ := ih
    simp [resetGame, i4]
  | keyPressed k g _ ih =>
    obtain ⟨k1, k2, k3, k4⟩ := keyPressed_fields k g
    rw [k1, k2, k3, k4]
    exact ih
  | draw inp g _ ih =>
    obtain ⟨i1, i2, i3, i4⟩ := ih
    cases hl : g.loss with
    | true =>
      rw [draw_loss collide c inp g hl]
      split
      · simp [resetGame, i4]
      · exact ⟨i1, i2, i3, i4⟩
    | false =>
      cases hp : g.playing with
      | false =>
        rw [draw_paused collide c inp g hp hl]
        exact ⟨i1, i2, i3, i4⟩
      | true =>
        obtain ⟨d1, d2, _, d4, d5, _⟩ := draw_active_fields collide c inp g hp hl
        obtain ⟨_, _, _, _, _, p6⟩ := afterPasses_fields collide c inp g
        rw [d1, d2, d4, d5]
        refine ⟨fun h => by simpa using h, fun h => ?_, le_trans i3 p6, ?_⟩
        · rw [if_pos (by simpa using h)]
          exact le_max_right _ _
        · split
          · exact le_trans i4 (le_max_left _ _)
          · exact i4

theorem run_loss_stays (collide : Collide) (c : Canvas) (evs : List Event) :
    ∀ g : Game, g.loss = true → (∀ e ∈ evs, Event.clicksPlayAgain c e = false) →
      (run collide c g evs).loss = true := by
  induction evs with
  | nil => intro g h _; exact h
  | cons e evs ih =>
    intro g h hc
    rw [run_cons]
    refine ih _ ((step_summary collide c g e).2.2.2 h (hc e (List.mem_cons_self _ _))) ?_
    intro e1 he1
    exact hc e1 (List.mem_cons_of_mem _ he1)

theorem maxScore_nonneg (l : List Int) : 0 ≤ maxScore l := by
  induction l with
  | nil => exact le_rfl
  | cons a l ih => exact le_trans ih (le_max_right _ _)

theorem maxScore_append (l1 l2 : List Int) :
    maxScore (l1 ++ l2) = max (maxScore l1) (maxScore l2) := by
  induction l1 with
  | nil =>
    have : maxScore ([] : List Int) = 0 := rfl
    rw [List.nil_append, this, max_eq_right (maxScore_nonneg l2)]
  | cons a l ih =>
    have : maxScore (a :: l ++ l2) = max a (maxScore (l ++ l2)) := rfl
    rw [this, ih]
    have : maxScore (a :: l) = max a (maxScore l) := rfl
    rw [this, max_assoc]

theorem run_highScore (collide : Collide) (c : Canvas) (evs : List Event) :
    ∀ g : Game, 0 ≤ g.score → 0 ≤ g.highScore →
      (run collide c g evs).highScore
          = max g.highScore (maxScore (roundsEnded collide c g evs))
      ∧ ∀ x ∈ roundsEnded collide c g evs, 0 ≤ x := by
  induction evs with
  | nil =>
    intro g _ hh
    refine ⟨?_, fun x hx => absurd hx (List.not_mem_nil _)⟩
    simp [run_nil, roundsEnded, maxScore, hh]
  | cons e evs ih =>
    intro g hs hh
    obtain ⟨s1, s2, s3, _⟩ := step_summary collide c g e
    rw [run_cons, roundsEnded]
    by_cases hnew : g.loss = false ∧ (step collide c g e).loss = true
    · have h1 := s1 hnew
      obtain ⟨ih1, ih2⟩ := ih (step collide c g e) (s3 hs)
        (by rw [h1]; exact le_trans hh (le_max_left _ _))
      rw [if_pos (by simp [hnew.1, hnew.2]), ih1, h1, maxScore_append]
      refine ⟨?_, ?_⟩
      · have : maxScore [(step collide c g e).score] = max (step collide c g e).score 0 := rfl
        rw [this, max_eq_left (s3 hs), max_assoc]
      · intro x hx
        rcases List.mem_append.mp hx with hx | hx
        · rw [List.mem_singleton.mp hx]; exact s3 hs
        · exact ih2 x hx
    · have h1 := s2 hnew
      obtain ⟨ih1, ih2⟩ := ih (step collide c g e) (s3 hs) (by rw [h1]; exact hh)
      have hif : (!g.loss && (step collide c g e).loss) = false := by
        cases h3 : g.loss <;> cases h4 : (step collide c g e).loss <;> simp_all
      rw [hif, ih1, h1]
      simp only [Bool.false_eq_true, if_false, List.nil_append]
      exact ⟨trivial, ih2⟩

/-! ## The losing game on the narrow canvas -/

theorem idle_frame (collide : Collide) (life : Int) (timer : ℚ) (hl : 0 < life)
    (ht : timer < 1) :
    draw collide narrowCanvas idleInput (idleGame life timer)
      = idleGame life (timer + 1 / 100) := by
  have h1 : ¬ life ≤ 0 := not_le.mpr hl
  have h2 : ¬ timer ≥ 1 := not_le.mpr ht
  simp [draw, idleGame, idleInput, narrowCanvas, BulletSystem.update,
    BulletSystem.updateLoop_done, TargetSystem.update_eq, TargetSystem.sweep,
    TargetSystem.breaches, gameOver, addEnemy, p5map, Ship.move, h1, h2]

theorem idle_frames (collide : Collide) (life : Int) (hl : 0 < life) (n : Nat) :
    ∀ timer : ℚ, timer + n / 100 ≤ 1 →
      run collide narrowCanvas (idleGame life timer)
          (List.replicate n (Event.frame idleInput))
        = idleGame life (timer + n / 100) := by
  induction n with
  | zero => intro timer _; simp [run_nil]
  | succ n ih =>
    intro timer ht
    push_cast at ht
    have hn : (0 : ℚ) ≤ n := Nat.cast_nonneg n
    rw [List.replicate_succ, run_cons, step, idle_frame collide life timer hl (by linarith),
      ih (timer + 1 / 100) (by linarith)]
    congr 1
    push_cast
    ring

theorem breach_frames (collide : Collide) (life : Int) (hl : 0 < life) :
    run collide narrowCanvas (idleGame life 1) (List.replicate 3 (Event.frame idleInput))
      = if life ≤ 1 then { idleGame (life - 1) (3 / 100) with loss := true }
        else idleGame (life - 1) (3 / 100) := by
  have h1 : ¬ life ≤ 0 := not_le.mpr hl
  have h3 : ¬ life - 1 ≤ 0 ↔ ¬ life ≤ 1 := by constructor <;> intro h <;> omega
  by_cases h2 : life ≤ 1
  · have h4 : life - 1 ≤ 0 := by omega
    norm_num [List.replicate, run_cons, run_nil, step, draw, idleGame, idleInput, narrowCanvas,
      BulletSystem.update,
      BulletSystem.updateLoop_done, TargetSystem.update_eq, TargetSystem.sweep,
      TargetSystem.breaches, gameOver, addEnemy, p5map, Ship.move, h1, h2, h4,
      TargetSystem.add, Enemy.move, Enemy.xSpeed]
  · have h4 : ¬ life - 1 ≤ 0 := by omega
    norm_num [List.replicate, run_cons, run_nil, step, draw, idleGame, idleInput, narrowCanvas,
      BulletSystem.update,
      BulletSystem.updateLoop_done, TargetSystem.update_eq, TargetSystem.sweep,
      TargetSystem.breaches, gameOver, addEnemy, p5map, Ship.move, h1, h2, h4,
      TargetSystem.add, Enemy.move, Enemy.xSpeed]

theorem first_frame (collide : Collide) :
    draw collide narrowCanvas idleInput (setup narrowCanvas) = idleGame 4 (1 / 10) := by
  norm_num [draw, setup, idleGame, idleInput, narrowCanvas, BulletSystem.update,
    BulletSystem.updateLoop_done, TargetSystem.update_eq, TargetSystem.sweep,
    TargetSystem.breaches, gameOver, addEnemy, p5map, Ship.move, TargetSystem.add,
    shipWidth, shipHeight, Ship.height, Ship.ySpeed]

theorem spawn_cycle (collide : Collide) (life : Int) (hl : 1 < life) :
    run collide narrowCanvas (idleGame life 1) (List.replicate 100 (Event.frame idleInput))
      = idleGame (life - 1) 1 := by
  have hsplit : List.replicate 100 (Event.frame idleInput)
      = List.replicate 3 (Event.frame idleInput) ++ List.replicate 97 (Event.frame idleInput) :=
    rfl
  rw [hsplit, run_append, breach_frames collide life (by omega), if_neg (by omega),
    idle_frames collide (life - 1) (by omega) 97 (3 / 100) (by norm_num)]
  norm_num

set_option maxRecDepth 8000 in
/-- The losing game: 394 idle frames after `setup` on the narrow canvas end in
`lostGame`, with no life left and `loss` set. -/
theorem losing_game (collide : Collide) :
    run collide narrowCanvas (setup narrowCanvas) losingFrames = lostGame := by
  have hsplit : losingFrames
      = Event.frame idleInput :: (List.replicate 90 (Event.frame idleInput)
        ++ (List.replicate 100 (Event.frame idleInput)
        ++ (List.replicate 100 (Event.frame idleInput)
        ++ (List.replicate 100 (Event.frame idleInput)
        ++ List.replicate 3 (Event.frame idleInput))))) := rfl
  rw [hsplit, run_cons, step, first_frame, run_append,
    idle_frames collide 4 (by norm_num) 90 (1 / 10) (by norm_num)]
  have e1 : (1 / 10 : ℚ) + ((90 : ℕ) : ℚ) / 100 = 1 := by norm_num
  rw [e1, run_append, spawn_cycle collide 4 (by norm_num), run_append,
    spawn_cycle collide (4 - 1) (by norm_num), run_append,
    spawn_cycle collide (4 - 1 - 1) (by norm_num),
    breach_frames collide (4 - 1 - 1 - 1) (by norm_num)]
  norm_num [idleGame, lostGame]

theorem lostGame_reachable (collide : Collide) :
    Reachable collide narrowCanvas lostGame := by
  rw [← losing_game collide]
  exact reachable_run collide narrowCanvas losingFrames _ (Reachable.setup)

/-! ## The enemies stay in marching order -/

theorem BulletSystem.updateInner_sublist (collide : Collide) (b : Bullet) (i j : Nat)
    (g : Game) :
    (BulletSystem.updateInner collide b i j g).targets.Sublist g.targets := by
  induction j, g using BulletSystem.updateInner.induct collide b i with
  | case1 j g h t hc ih =>
    rw [BulletSystem.updateInner_hit collide b i j g h hc]
    exact ih.trans (List.eraseIdx_sublist _ _)
  | case2 j g h t hc ih =>
    rw [BulletSystem.updateInner_miss collide b i j g h (by simpa using hc)]
    exact ih
  | case3 j g h =>
    rw [BulletSystem.updateInner_done collide b i j g (not_lt.mp h)]

theorem BulletSystem.updateLoop_sublist (collide : Collide) (width : ℚ) (i : Nat) (g : Game) :
    (BulletSystem.updateLoop collide width i g).targets.Sublist g.targets := by
  induction i, g using BulletSystem.updateLoop.induct collide width with
  | case1 i g h b g1 hx ih =>
    rw [BulletSystem.updateLoop_exit collide width i g h hx]
    exact ih
  | case2 i g h b g1 hx ih =>
    rw [BulletSystem.updateLoop_test collide width i g h (not_lt.mp hx)]
    exact ih.trans (BulletSystem.updateInner_sublist collide b i 0 g1)
  | case3 i g h =>
    rw [BulletSystem.updateLoop_done collide width i g (not_lt.mp h)]

theorem lined_sublist (w : ℚ) (l1 l2 : List Enemy) (hs : l1.Sublist l2) (h : Lined w l2) :
    Lined w l1 := by
  obtain ⟨h1, h2, h3, h4⟩ := h
  have ht : l1.tail.Sublist l2.tail := hs.tail
  exact ⟨fun e he => h1 e (hs.subset he), h2.sublist hs, h3.sublist ht,
    fun e he => h4 e (ht.subset he)⟩

theorem sweep_of_pos (l : List Enemy) (h : ∀ e ∈ l, 0 < e.xPos) :
    TargetSystem.sweep l = l.map Enemy.move ∧ TargetSystem.breaches l = 0 := by
  induction l with
  | nil => exact ⟨rfl, rfl⟩
  | cons e t ih =>
    have he : e.xPos > 0 := h e (List.mem_cons_self _ _)
    cases t with
    | nil => simp [TargetSystem.sweep, TargetSystem.breaches, he]
    | cons e2 rest =>
      obtain ⟨i1, i2⟩ := ih (fun x hx => h x (List.mem_cons_of_mem _ hx))
      simp only [TargetSystem.sweep, TargetSystem.breaches, he, if_true, i1, i2]
      simp

theorem linedAfterPass_map_move (w : ℚ) (l : List Enemy) (h : Lined w l)
    (hp : ∀ e ∈ l, 0 < e.xPos) :
    LinedAfterPass w (l.map Enemy.move) := by
  obtain ⟨h1, h2, h3, h4⟩ := h
  refine ⟨⟨?_, ?_, ?_, ?_⟩, ?_, ?_⟩
  · intro e he
    obtain ⟨a, ha, rfl⟩ := List.mem_map.mp he
    have := h1 a ha
    simp only [Enemy.move, Enemy.xSpeed]
    linarith
  · rw [List.pairwise_map]
    exact h2.imp (fun hab => by simp only [Enemy.move, Enemy.xSpeed]; linarith)
  · rw [← List.map_tail, List.pairwise_map]
    exact h3.imp (fun hab => by simp only [Enemy.move, Enemy.xSpeed]; linarith)
  · intro e he
    rw [← List.map_tail] at he
    obtain ⟨a, ha, rfl⟩ := List.mem_map.mp he
    have := hp a ((List.tail_sublist l).subset ha)
    simp only [Enemy.move, Enemy.xSpeed]
    linarith
  · intro e he
    rw [← List.map_tail] at he
    obtain ⟨a, ha, rfl⟩ := List.mem_map.mp he
    have := h1 a ((List.tail_sublist l).subset ha)
    simp only [Enemy.move, Enemy.xSpeed]
    linarith
  · intro hne
    cases l with
    | nil => exact absurd rfl hne
    | cons a t =>
      have := h1 a (List.mem_cons_self _ _)
      have := hp a (List.mem_cons_self _ _)
      linarith

theorem linedAfterPass_sweep (w : ℚ) (l : List Enemy) (h : Lined w l) :
    LinedAfterPass w (TargetSystem.sweep l) ∧ TargetSystem.breaches l ≤ 1 := by
  cases l with
  | nil =>
    refine ⟨⟨⟨?_, ?_, ?_, ?_⟩, ?_, ?_⟩, ?_⟩ <;> simp [TargetSystem.sweep, TargetSystem.breaches]
  | cons e r =>
    obtain ⟨h1, h2, h3, h4⟩ := h
    by_cases he : e.xPos > 0
    · have hp : ∀ a ∈ e :: r, 0 < a.xPos := by
        intro a ha
        rcases List.mem_cons.mp ha with rfl | ha
        · exact he
        · exact lt_of_lt_of_le he ((List.pairwise_cons.mp h2).1 a ha)
      obtain ⟨s1, s2⟩ := sweep_of_pos (e :: r) hp
      rw [s1, s2]
      exact ⟨linedAfterPass_map_move w (e :: r) ⟨h1, h2, h3, h4⟩ hp, by omega⟩
    · cases r with
      | nil =>
        simp only [TargetSystem.sweep, TargetSystem.breaches, he, if_false]
        refine ⟨⟨⟨?_, ?_, ?_, ?_⟩, ?_, ?_⟩, le_rfl⟩ <;> simp
      | cons e2 rest =>
        simp only [List.tail_cons] at h3 h4
        have h3c := List.pairwise_cons.mp h3
        have he2 : -2 < e2.xPos := h4 e2 (List.mem_cons_self _ _)
        have hp : ∀ a ∈ rest, 0 < a.xPos := by
          intro a ha
          have := h3c.1 a ha
          linarith
        obtain ⟨s1, s2⟩ := sweep_of_pos rest hp
        have hs : TargetSystem.sweep (e :: e2 :: rest) = e2 :: rest.map Enemy.move := by
          simp only [TargetSystem.sweep, he, if_false, s1]
        have hb : TargetSystem.breaches (e :: e2 :: rest) = 1 := by
          simp only [TargetSystem.breaches, he, if_false, s2]
        rw [hs, hb]
        refine ⟨⟨⟨?_, ?_, ?_, ?_⟩, ?_, ?_⟩, le_rfl⟩
        · intro a ha
          rcases List.mem_cons.mp ha with rfl | ha
          · exact h1 _ (List.mem_cons_of_mem _ (List.mem_cons_self _ _))
          · obtain ⟨x, hx, rfl⟩ := List.mem_map.mp ha
            have := h1 x (List.mem_cons_of_mem _ (List.mem_cons_of_mem _ hx))
            simp only [Enemy.move, Enemy.xSpeed]
            linarith
        · rw [List.pairwise_cons]
          constructor
          · intro a ha
            obtain ⟨x, hx, rfl⟩ := List.mem_map.mp ha
            have := h3c.1 x hx
            simp only [Enemy.move, Enemy.xSpeed]
            linarith
          · rw [List.pairwise_map]
            exact h3c.2.imp (fun hab => by simp only [Enemy.move, Enemy.xSpeed]; linarith)
        · simp only [List.tail_cons]
          rw [List.pairwise_map]
          exact h3c.2.imp (fun hab => by simp only [Enemy.move, Enemy.xSpeed]; linarith)
        · intro a ha
          simp only [List.tail_cons] at ha
          obtain ⟨x, hx, rfl⟩ := List.mem_map.mp ha
          have := hp x hx
          simp only [Enemy.move, Enemy.xSpeed]
          linarith
        · intro a ha
          simp only [List.tail_cons] at ha
          obtain ⟨x, hx, rfl⟩ := List.mem_map.mp ha
          have := h1 x (List.mem_cons_of_mem _ (List.mem_cons_of_mem _ hx))
          simp only [Enemy.move, Enemy.xSpeed]
          linarith
        · intro _
          have := h1 e2 (List.mem_cons_of_mem _ (List.mem_cons_self _ _))
          linarith

theorem lined_spawn (w y : ℚ) (l : List Enemy) (h : LinedAfterPass w l) :
    Lined w (l ++ [⟨w, y⟩]) := by
  obtain ⟨⟨h1, h2, h3, h4⟩, h5, h6⟩ := h
  cases l with
  | nil =>
    refine ⟨?_, ?_, ?_, ?_⟩ <;> simp
  | cons a t =>
    have hw : -2 < w := h6 (by simp)
    simp only [List.tail_cons] at h3 h4 h5
    refine ⟨?_, ?_, ?_, ?_⟩
    · intro e he
      rcases List.mem_append.mp he with he | he
      · exact h1 e he
      · rw [List.mem_singleton.mp he]
    · rw [List.pairwise_append]
      refine ⟨h2, List.pairwise_singleton _ _, ?_⟩
      intro x hx z hz
      rw [List.mem_singleton.mp hz]
      exact h1 x hx
    · simp only [List.cons_append, List.tail_cons]
      rw [List.pairwise_append]
      refine ⟨h3, List.pairwise_singleton _ _, ?_⟩
      intro x hx z hz
      rw [List.mem_singleton.mp hz]
      exact h5 x hx
    · intro e he
      simp only [List.cons_append, List.tail_cons] at he
      rcases List.mem_append.mp he with he | he
      · exact h4 e he
      · rw [List.mem_singleton.mp he]
        exact hw

theorem gameOver_targets (g : Game) : (gameOver g).targets = g.targets := by
  unfold gameOver
  split
  · dsimp only
    split <;> rfl
  · rfl

theorem draw_active_targets (collide : Collide) (c : Canvas) (inp : Input) (g : Game)
    (hp : g.playing = true) (hl : g.loss = false) :
    (draw collide c inp g).targets = (afterPasses collide c inp g).targets
    ∨ (draw collide c inp g).targets
        = (afterPasses collide c inp g).targets ++ [⟨c.width, inp.rand⟩] := by
  rw [draw_active collide c inp g hp hl]
  dsimp only
  unfold addEnemy
  split
  · right
    simp [TargetSystem.add, gameOver_targets]
  · left
    exact gameOver_targets _

theorem afterPasses_lined (collide : Collide) (c : Canvas) (inp : Input) (g : Game)
    (h : Lined c.width g.targets) :
    LinedAfterPass c.width (afterPasses collide c inp g).targets
    ∧ g.life - 1 ≤ (afterPasses collide c inp g).life
    ∧ (afterPasses collide c inp g).life ≤ g.life := by
  have hsub := BulletSystem.updateLoop_sublist collide c.width 0
    { g with s := g.s.move c.height inp.up inp.down }
  obtain ⟨_, _, h3⟩ := BulletSystem.update_spec collide c.width
    { g with s := g.s.move c.height inp.up inp.down }
  have hlife : (BulletSystem.update collide c.width
      { g with s := g.s.move c.height inp.up inp.down }).life = g.life := by
    rw [h3]
  obtain ⟨k1, k2⟩ := linedAfterPass_sweep c.width _
    (lined_sublist c.width _ _ hsub h)
  unfold afterPasses
  rw [TargetSystem.update_eq]
  dsimp only
  rw [hlife]
  refine ⟨k1, ?_, ?_⟩
  · have : (TargetSystem.breaches (BulletSystem.update collide c.width
        { g with s := g.s.move c.height inp.up inp.down }).targets : Int) ≤ 1 := by
      exact_mod_cast k2
    linarith
  · have : (0 : Int) ≤ (TargetSystem.breaches (BulletSystem.update collide c.width
        { g with s := g.s.move c.height inp.up inp.down }).targets : Int) :=
      Int.natCast_nonneg _
    linarith

/-- In every reachable state the enemies are in marching order, and life is
between 0 and 5, positive while the round is not lost. -/
theorem reachable_life (collide : Collide) (c : Canvas) (g : Game)
    (h : Reachable collide c g) :
    Lined c.width g.targets ∧ g.life ≤ 5 ∧ 0 ≤ g.life ∧ (g.loss = false → 0 < g.life) := by
  have hnil : Lined c.width [] := by
    refine ⟨?_, ?_, ?_, ?_⟩ <;> simp
  induction h with
  | setup =>
    refine ⟨⟨?_, ?_, ?_, ?_⟩, ?_, ?_, ?_⟩ <;>
      simp [Invaders.setup, TargetSystem.add, shipWidth]
    linarith
  | resetGame g _ ih =>
    exact ⟨hnil, by simp [Invaders.resetGame], by simp [Invaders.resetGame],
      by simp [Invaders.resetGame]⟩
  | keyPressed k g _ ih =>
    obtain ⟨k1, _, k3, _⟩ := keyPressed_fields k g
    have kt : (Invaders.keyPressed k g).targets = g.targets := by
      unfold Invaders.keyPressed
      split
      · rfl
      · split <;> rfl
    rw [kt, k1, k3]
    exact ih
  | draw inp g _ ih =>
    obtain ⟨i1, i2, i3, i4⟩ := ih
    cases hl : g.loss with
    | true =>
      rw [draw_loss collide c inp g hl]
      split
      · exact ⟨hnil, by simp [Invaders.resetGame], by simp [Invaders.resetGame],
          by simp [Invaders.resetGame]⟩
      · exact ⟨i1, i2, i3, i4⟩
    | false =>
      cases hp : g.playing with
      | false =>
        rw [draw_paused collide c inp g hp hl]
        exact ⟨i1, i2, i3, i4⟩
      | true =>
        obtain ⟨d1, _, _, d4, _, _⟩ := draw_active_fields collide c inp g hp hl
        obtain ⟨a1, a2, a3⟩ := afterPasses_lined collide c inp g i1
        have hpos := i4 hl
        rw [d1, d4]
        refine ⟨?_, by linarith, by linarith, ?_⟩
        · rcases draw_active_targets collide c inp g hp hl with ht | ht
          · rw [ht]
            exact a1.1
          · rw [ht]
            exact lined_spawn c.width inp.rand _ a1
        · intro hd
          have : ¬ (afterPasses collide c inp g).life ≤ 0 := by simpa using hd
          exact not_le.mp this

/-! ## The claims -/

/-- C1 (the code departs from the claim): with a single bullet that stays on the
canvas and three enemies, a collision test that reports a hit on the first and
on the third enemy makes one `BulletSystem.update` remove two enemies and raise
the score by 10.  The inner loop has no `break`: after the first hit it goes on
with the same bullet, passing over the second enemy, which has moved into the
vacated index. -/
theorem C1_single_bullet_credits_two_enemies (collide : Collide)
    (h0 : collide 100 60 20 5 (Enemy.toArray ⟨100, 50⟩) = true)
    (h2 : collide 100 60 20 5 (Enemy.toArray ⟨108, 50⟩) = true) :
    (BulletSystem.update collide 640
      { s := ⟨50, 240⟩, bullets := [⟨95, 60⟩],
        targets := [⟨100, 50⟩, ⟨104, 50⟩, ⟨108, 50⟩],
        life := 5, score := 0, timer := 0, diff := 1 / 100,
        playing := true, loss := false, highScore := 0 })
      = { s := ⟨50, 240⟩, bullets := [],
          targets := [⟨104, 50⟩],
          life := 5, score := 10, timer := 0, diff := 1 / 100,
          playing := true, loss := false, highScore := 0 } := by
  norm_num [BulletSystem.update, BulletSystem.updateLoop_test, BulletSystem.updateLoop_done,
    BulletSystem.updateInner_hit, BulletSystem.updateInner_done,
    Bullet.move, Bullet.xSpeed, Bullet.width, Bullet.height, BulletSystem.remove,
    TargetSystem.remove, h0, h2]

/-- Witness of C1: the collision test that always reports a hit. -/
theorem C1_single_bullet_credits_two_enemies_witness :
    (BulletSystem.update (fun _ _ _ _ _ => true) 640
      { s := ⟨50, 240⟩, bullets := [⟨95, 60⟩],
        targets := [⟨100, 50⟩, ⟨104, 50⟩, ⟨108, 50⟩],
        life := 5, score := 0, timer := 0, diff := 1 / 100,
        playing := true, loss := false, highScore := 0 }).targets.length = 1 := by
  rw [C1_single_bullet_credits_two_enemies (fun _ _ _ _ _ => true) rfl rfl]
  rfl

/-- C2: one `BulletSystem.update` raises the score by exactly 5 times the number
of enemies it removes from the enemy collection, `score' - score =
5 * (enemies before - enemies after)`; no enemy is added, and the score does not
decrease. -/
theorem C2_update_score_five_per_enemy (collide : Collide) (width : ℚ) (g : Game) :
    (BulletSystem.update collide width g).score - g.score
        = 5 * ((g.targets.length : Int)
            - ((BulletSystem.update collide width g).targets.length : Int))
    ∧ (BulletSystem.update collide width g).targets.length ≤ g.targets.length
    ∧ g.score ≤ (BulletSystem.update collide width g).score := by
  obtain ⟨h1, h2, _⟩ := BulletSystem.update_spec collide width g
  refine ⟨by omega, h2, by omega⟩

/-- C3 (the code departs from the claim): with an enemy at `xPos = 0` followed by
an enemy at `xPos = 200`, `TargetSystem.update` removes the first and passes
over the second, which stays at `xPos = 200` instead of advancing to 198; with
two enemies at `xPos = 0` it removes only the first and life drops by 1, not 2.
Removing at index `i` and then incrementing `i` skips the next enemy. -/
theorem C3_update_skips_enemy_after_removal :
    (TargetSystem.update
      { s := ⟨50, 240⟩, bullets := [], targets := [⟨0, 10⟩, ⟨200, 20⟩],
        life := 5, score := 0, timer := 0, diff := 1 / 100,
        playing := true, loss := false, highScore := 0 })
      = { s := ⟨50, 240⟩, bullets := [], targets := [⟨200, 20⟩],
          life := 4, score := 0, timer := 0, diff := 1 / 100,
          playing := true, loss := false, highScore := 0 }
    ∧ (([⟨0, 10⟩, ⟨200, 20⟩] : List Enemy).filter (fun e => decide (e.xPos > 0))).map Enemy.move
        = [⟨198, 20⟩]
    ∧ (TargetSystem.update
      { s := ⟨50, 240⟩, bullets := [], targets := [⟨0, 10⟩, ⟨0, 20⟩],
        life := 5, score := 0, timer := 0, diff := 1 / 100,
        playing := true, loss := false, highScore := 0 })
      = { s := ⟨50, 240⟩, bullets := [], targets := [⟨0, 20⟩],
          life := 4, score := 0, timer := 0, diff := 1 / 100,
          playing := true, loss := false, highScore := 0 } := by
  refine ⟨?_, ?_, ?_⟩
  · norm_num [TargetSystem.update_eq, TargetSystem.sweep, TargetSystem.breaches]
  · norm_num [Enemy.move, Enemy.xSpeed]
  · norm_num [TargetSystem.update_eq, TargetSystem.sweep, TargetSystem.breaches]

/-- C4: after `TargetSystem.update` life has dropped by exactly the number of
enemies removed from the collection, every removed enemy had `xPos ≤ 0` before
the update (the collection afterwards is the one before with such enemies
removed and the others kept in order, unchanged or moved), and nothing but the
collection and life has changed; the score in particular is the same. -/
theorem C4_update_life_drops_per_removed_enemy (g : Game) :
    g.life - (TargetSystem.update g).life
        = (g.targets.length : Int) - ((TargetSystem.update g).targets.length : Int)
    ∧ (TargetSystem.update g).targets.length ≤ g.targets.length
    ∧ TargetSystem.Pruned g.targets (TargetSystem.update g).targets
    ∧ (TargetSystem.update g).score = g.score
    ∧ TargetSystem.update g =
        { g with targets := (TargetSystem.update g).targets,
                 life := (TargetSystem.update g).life } := by
  have hb := TargetSystem.breaches_add_length g.targets.length g.targets le_rfl
  have hp := TargetSystem.sweep_pruned g.targets.length g.targets le_rfl
  rw [TargetSystem.update_eq]
  dsimp only
  refine ⟨by omega, by omega, hp, rfl, rfl⟩

/-- C5: in every state reachable from `setup` through frames, key presses and
resets, `life ≤ 0` implies `loss = true`; an active frame that leaves
`life ≤ 0` ends with `loss = true`; and once `loss` is true it stays true under
every sequence of key presses and frames that holds no click in the Play Again
box, the only way `resetGame` runs. -/
theorem C5_loss_set_and_kept (collide : Collide) (c : Canvas) :
    (∀ g : Game, Reachable collide c g → g.life ≤ 0 → g.loss = true)
    ∧ (∀ (g : Game) (inp : Input), g.playing = true → g.loss = false →
        (draw collide c inp g).life ≤ 0 → (draw collide c inp g).loss = true)
    ∧ (∀ (g : Game) (evs : List Event), g.loss = true →
        (∀ e ∈ evs, Event.clicksPlayAgain c e = false) →
        (run collide c g evs).loss = true) := by
  refine ⟨fun g h => (reachable_invariant collide c g h).1, ?_, ?_⟩
  · intro g inp hp hl h
    obtain ⟨d1, _, _, d4, _, _⟩ := draw_active_fields collide c inp g hp hl
    rw [d4]
    rw [d1] at h
    simpa using h
  · intro g evs hl hc
    exact run_loss_stays collide c evs g hl hc

/-- Witness of C5: the losing game on the narrow canvas reaches a state with
`life = 0`, where `loss` is set, and a pause key press followed by an idle frame
leaves `loss` set. -/
theorem C5_loss_set_and_kept_witness :
    Reachable (fun _ _ _ _ _ => true) narrowCanvas lostGame
    ∧ lostGame.life ≤ 0
    ∧ lostGame.loss = true
    ∧ (run (fun _ _ _ _ _ => true) narrowCanvas lostGame
        [Event.key RETURN, Event.frame idleInput]).loss = true :=
  ⟨lostGame_reachable _, by decide,
    (C5_loss_set_and_kept (fun _ _ _ _ _ => true) narrowCanvas).1 lostGame
      (lostGame_reachable _) (by decide),
    (C5_loss_set_and_kept (fun _ _ _ _ _ => true) narrowCanvas).2.2 lostGame
      [Event.key RETURN, Event.frame idleInput] rfl
      (by
        intro e he
        simp only [List.mem_cons, List.mem_singleton, List.not_mem_nil, or_false] at he
        rcases he with he | he <;> subst he <;>
          simp [Event.clicksPlayAgain, playAgain, idleInput])⟩

/-- C6: for every state with `loss = true`, a frame in which the mouse is
pressed strictly inside the Play Again box ends with the ship at
`(50, height / 2)`, both collections empty, `life = 5`, `score = 0`,
`timer = 0`, `playing = true`, `loss = false`, and `highScore` (and `diff`)
unchanged; a frame with the mouse not pressed or not strictly inside the box
leaves the whole game state unchanged. -/
theorem C6_play_again_resets (collide : Collide) (c : Canvas) (inp : Input) (g : Game)
    (hl : g.loss = true) :
    (inp.mouseIsPressed = true →
      c.width / 2 - 50 < inp.mouseX → inp.mouseX < c.width / 2 + 50 →
      c.height / 2 + 85 < inp.mouseY → inp.mouseY < c.height / 2 + 115 →
      draw collide c inp g =
        { s := ⟨50, c.height / 2⟩, bullets := [], targets := [], life := 5, score := 0,
          timer := 0, diff := g.diff, playing := true, loss := false,
          highScore := g.highScore })
    ∧ (¬ (inp.mouseIsPressed = true ∧
          c.width / 2 - 50 < inp.mouseX ∧ inp.mouseX < c.width / 2 + 50 ∧
          c.height / 2 + 85 < inp.mouseY ∧ inp.mouseY < c.height / 2 + 115) →
      draw collide c inp g = g) := by
  rw [draw_loss collide c inp g hl]
  constructor
  · intro h1 h2 h3 h4 h5
    have : playAgain c inp = true := by simp [playAgain, h1, h2, h3, h4, h5]
    rw [if_pos this]
    rfl
  · intro h
    have : playAgain c inp = false := by
      by_contra hc
      apply h
      simpa [playAgain, and_assoc] using hc
    rw [this]
    rfl

/-- Witness of C6: in the lost game on a 640 by 480 canvas, a click at
`(320, 340)` resets the round and a click at `(0, 0)` changes nothing. -/
theorem C6_play_again_resets_witness :
    draw (fun _ _ _ _ _ => true) ⟨640, 480⟩ ⟨false, false, true, 320, 340, 0⟩ lostGame
        = { s := ⟨50, 480 / 2⟩, bullets := [], targets := [], life := 5, score := 0,
            timer := 0, diff := lostGame.diff, playing := true, loss := false,
            highScore := lostGame.highScore }
    ∧ draw (fun _ _ _ _ _ => true) ⟨640, 480⟩ ⟨false, false, true, 0, 0, 0⟩ lostGame
        = lostGame :=
  ⟨(C6_play_again_resets (fun _ _ _ _ _ => true) ⟨640, 480⟩
      ⟨false, false, true, 320, 340, 0⟩ lostGame rfl).1
      rfl (by norm_num) (by norm_num) (by norm_num) (by norm_num),
   (C6_play_again_resets (fun _ _ _ _ _ => true) ⟨640, 480⟩
      ⟨false, false, true, 0, 0, 0⟩ lostGame rfl).2 (by norm_num)⟩

/-- C7: `highScore` never decreases under `draw`, `keyPressed` or `resetGame`;
after an active frame that leaves `life ≤ 0`, `highScore` is the larger of the
previous `highScore` and the score; in every reachable state with `loss = true`,
`highScore ≥ score`; and after any sequence of frames and key presses from
`setup`, `highScore` is the largest final score of the rounds ended so far (0 when
no round has ended; final scores are never negative). -/
theorem C7_highScore_is_running_maximum (collide : Collide) (c : Canvas) :
    (∀ (g : Game) (inp : Input), g.highScore ≤ (draw collide c inp g).highScore)
    ∧ (∀ (g : Game) (keyCode : Nat), (keyPressed keyCode g).highScore = g.highScore)
    ∧ (∀ g : Game, (resetGame c g).highScore = g.highScore)
    ∧ (∀ (g : Game) (inp : Input), g.playing = true → g.loss = false →
        (draw collide c inp g).life ≤ 0 →
        (draw collide c inp g).highScore = max g.highScore (draw collide c inp g).score)
    ∧ (∀ g : Game, Reachable collide c g → g.loss = true → g.score ≤ g.highScore)
    ∧ (∀ evs : List Event,
        (run collide c (setup c) evs).highScore
            = maxScore (roundsEnded collide c (setup c) evs)
        ∧ ∀ x ∈ roundsEnded collide c (setup c) evs, 0 ≤ x) := by
  refine ⟨?_, fun g k => (keyPressed_fields k g).2.2.2, fun g => rfl, ?_,
    fun g h => (reachable_invariant collide c g h).2.1, ?_⟩
  · intro g inp
    obtain ⟨s1, s2, _, _⟩ := step_summary collide c g (Event.frame inp)
    by_cases hnew : g.loss = false ∧ (step collide c g (Event.frame inp)).loss = true
    · have := s1 hnew
      simp only [step] at this
      rw [this]
      exact le_max_left _ _
    · have := s2 hnew
      simp only [step] at this
      rw [this]
  · intro g inp hp hl h
    obtain ⟨d1, d2, _, _, d5, _⟩ := draw_active_fields collide c inp g hp hl
    rw [d1] at h
    rw [d5, d2, if_pos h]
  · intro evs
    obtain ⟨h1, h2⟩ := run_highScore collide c evs (setup c) (by simp [setup]) (by simp [setup])
    refine ⟨?_, h2⟩
    rw [h1]
    have : (setup c).highScore = 0 := rfl
    rw [this, max_eq_right (maxScore_nonneg _)]

/-- Witness of C7: a round with score 15 ends against a high score of 10, which
becomes 15; and the lost game on the narrow canvas is reachable with `loss` set
and `highScore ≥ score`. -/
theorem C7_highScore_is_running_maximum_witness :
    (draw (fun _ _ _ _ _ => true) ⟨640, 480⟩ idleInput
        { s := ⟨50, 240⟩, bullets := [], targets := [⟨0, 100⟩], life := 1, score := 15,
          timer := 0, diff := 1 / 100, playing := true, loss := false,
          highScore := 10 }).highScore = 15
    ∧ lostGame.score ≤ lostGame.highScore := by
  have hd : draw (fun _ _ _ _ _ => true) ⟨640, 480⟩ idleInput
        { s := ⟨50, 240⟩, bullets := [], targets := [⟨0, 100⟩], life := 1, score := 15,
          timer := 0, diff := 1 / 100, playing := true, loss := false, highScore := 10 }
      = { s := ⟨50, 240⟩, bullets := [], targets := [], life := 0, score := 15,
          timer := 1 / 100, diff := p5map 15 0 1000000 (1 / 100) (1 / 2),
          playing := true, loss := true, highScore := 15 } := by
    norm_num [draw, idleInput, BulletSystem.update, BulletSystem.updateLoop_done,
      TargetSystem.update_eq, TargetSystem.sweep, TargetSystem.breaches, gameOver, addEnemy,
      Ship.move]
  have h1 := (C7_highScore_is_running_maximum (fun _ _ _ _ _ => true) ⟨640, 480⟩).2.2.2.1
    { s := ⟨50, 240⟩, bullets := [], targets := [⟨0, 100⟩], life := 1, score := 15,
      timer := 0, diff := 1 / 100, playing := true, loss := false, highScore := 10 }
    idleInput rfl rfl (by rw [hd])
  have h2 := (C7_highScore_is_running_maximum (fun _ _ _ _ _ => true) narrowCanvas).2.2.2.2.1
    lostGame (lostGame_reachable _) rfl
  refine ⟨?_, h2⟩
  rw [h1, hd]
  decide

/-- C8, the claim as stated fails: on a canvas of width 100 a bullet at
`xPos = 80` advances to 85, so its right edge 105 is past the canvas, yet
`BulletSystem.update` keeps it (the test is on `xPos`, the left edge), and with
an enemy it collides with it removes that enemy and adds 5 to the score. -/
theorem C8_leading_edge_counterexample :
    ((80 : ℚ) + 5 + 20 > 100)
    ∧ (BulletSystem.update (fun _ _ _ _ _ => true) 100
        { s := ⟨50, 240⟩, bullets := [⟨80, 0⟩], targets := [],
          life := 5, score := 0, timer := 0, diff := 1 / 100,
          playing := true, loss := false, highScore := 0 }).bullets = [⟨85, 0⟩]
    ∧ (BulletSystem.update (fun _ _ _ _ _ => true) 100
        { s := ⟨50, 240⟩, bullets := [⟨80, 0⟩], targets := [⟨90, 0⟩],
          life := 5, score := 0, timer := 0, diff := 1 / 100,
          playing := true, loss := false, highScore := 0 })
      = { s := ⟨50, 240⟩, bullets := [], targets := [],
          life := 5, score := 5, timer := 0, diff := 1 / 100,
          playing := true, loss := false, highScore := 0 } := by
  refine ⟨by norm_num, ?_, ?_⟩
  · norm_num [BulletSystem.update, BulletSystem.updateLoop_test, BulletSystem.updateLoop_done,
      BulletSystem.updateInner_done, Bullet.move, Bullet.xSpeed]
  · norm_num [BulletSystem.update, BulletSystem.updateLoop_test, BulletSystem.updateLoop_done,
      BulletSystem.updateInner_hit, BulletSystem.updateInner_done, Bullet.move, Bullet.xSpeed,
      BulletSystem.remove, TargetSystem.remove]

/-- C8 as amended: when the loop of `BulletSystem.update` visits, at index `i`, a
bullet whose `xPos` (its left edge) exceeds the canvas width after advancing by
5, it removes that bullet at once and goes on at index `i + 1` without testing
it against any enemy: enemies and score are untouched by that visit.  For a
collection holding only that bullet the update empties the bullet collection and
changes nothing else. -/
theorem C8_update_removes_exited_bullet (collide : Collide) (width : ℚ) (g : Game)
    (i : Nat) (h : i < g.bullets.length) (hx : (g.bullets[i]).xPos + 5 > width) :
    BulletSystem.updateLoop collide width i g
      = BulletSystem.updateLoop collide width (i + 1)
          { g with bullets := g.bullets.eraseIdx i }
    ∧ (g.bullets.length = 1 →
        BulletSystem.update collide width g = { g with bullets := [] }) := by
  have hstep : BulletSystem.updateLoop collide width i g
      = BulletSystem.updateLoop collide width (i + 1)
          { g with bullets := g.bullets.eraseIdx i } := by
    rw [BulletSystem.updateLoop_exit collide width i g h
      (by simpa [Bullet.move, Bullet.xSpeed] using hx)]
    simp [BulletSystem.remove, eraseIdx_set_same]
  refine ⟨hstep, ?_⟩
  intro h1
  have hi : i = 0 := by omega
  subst hi
  rw [BulletSystem.update, hstep]
  match hb : g.bullets, h1 with
  | [b], _ =>
    rw [BulletSystem.updateLoop_done _ _ _ _ (by simp [hb])]
    simp [hb]

/-- Witness of C8 as amended: on a canvas of width 100 a single bullet at
`xPos = 96` in front of an enemy is removed and the enemy is untouched. -/
theorem C8_update_removes_exited_bullet_witness :
    BulletSystem.update (fun _ _ _ _ _ => true) 100
        { s := ⟨50, 240⟩, bullets := [⟨96, 0⟩], targets := [⟨90, 0⟩],
          life := 5, score := 0, timer := 0, diff := 1 / 100,
          playing := true, loss := false, highScore := 0 }
      = { s := ⟨50, 240⟩, bullets := [], targets := [⟨90, 0⟩],
          life := 5, score := 0, timer := 0, diff := 1 / 100,
          playing := true, loss := false, highScore := 0 } :=
  (C8_update_removes_exited_bullet (fun _ _ _ _ _ => true) 100
      { s := ⟨50, 240⟩, bullets := [⟨96, 0⟩], targets := [⟨90, 0⟩],
        life := 5, score := 0, timer := 0, diff := 1 / 100,
        playing := true, loss := false, highScore := 0 }
      0 (by simp) (by norm_num)).2 (by simp)

/-- C9, the claim as stated fails: on a canvas of height 100 a ship at
`yPos = 3` is inside the canvas, and with the up key held `Ship.move` puts it at
`yPos = -2`, above the top edge. -/
theorem C9_ship_leaves_canvas_counterexample :
    ((100 : ℚ) ≥ 30) ∧ ((0 : ℚ) ≤ (⟨50, 3⟩ : Ship).yPos)
    ∧ ((⟨50, 3⟩ : Ship).yPos + 30 ≤ 100)
    ∧ ((⟨50, 3⟩ : Ship).move 100 true false).yPos = -2
    ∧ ¬ (0 ≤ ((⟨50, 3⟩ : Ship).move 100 true false).yPos) := by
  norm_num [Ship.move, Ship.height, Ship.ySpeed, shipHeight]

/-- C9 as amended: for a ship inside the canvas, `0 ≤ yPos` and
`yPos + 30 ≤ height` (so that `height ≥ 30`), `Ship.move` under any combination of held keys leaves the
ship less than one step of 5 outside: `-5 < yPos` and `yPos + 30 < height + 5`;
`xPos` is unchanged; movement is disabled at the edges (at `yPos ≤ 0` the ship
does not go up, at `yPos + 30 ≥ height` it does not go down); and when `yPos`
and `height - 30` are multiples of 5 the ship stays inside the canvas. -/
theorem C9_ship_move_bounds (height : ℚ) (s : Ship) (up down : Bool)
    (h0 : 0 ≤ s.yPos) (h1 : s.yPos + 30 ≤ height) :
    (-5 < (s.move height up down).yPos ∧ (s.move height up down).yPos + 30 < height + 5)
    ∧ (s.move height up down).xPos = s.xPos
    ∧ (s.yPos ≤ 0 → s.yPos ≤ (s.move height up down).yPos)
    ∧ (s.yPos + 30 ≥ height → (s.move height up down).yPos ≤ s.yPos)
    ∧ ((∃ a b : Int, s.yPos = 5 * a ∧ height - 30 = 5 * b) →
        0 ≤ (s.move height up down).yPos ∧ (s.move height up down).yPos + 30 ≤ height) := by
  have key : s.move height up down = s
      ∨ (0 < s.yPos ∧ s.move height up down = { s with yPos := s.yPos - 5 })
      ∨ (s.yPos + 30 < height ∧ s.move height up down = { s with yPos := s.yPos + 5 }) := by
    unfold Ship.move
    simp only [Ship.height, Ship.ySpeed, shipHeight]
    by_cases ht : s.yPos ≤ 0
    · by_cases hb : s.yPos + 30 ≥ height
      · left; simp [ht, hb]
      · cases down
        · left; simp [ht]
        · right; right; refine ⟨not_le.mp hb, ?_⟩; simp [ht, hb]
    · cases up
      · by_cases hb : s.yPos + 30 ≥ height
        · left; simp [hb]
        · cases down
          · left; simp
          · right; right; refine ⟨not_le.mp hb, ?_⟩; simp [hb]
      · right; left; refine ⟨not_le.mp ht, ?_⟩; simp [ht]
  rcases key with hk | ⟨hp, hk⟩ | ⟨hp, hk⟩
  · rw [hk]
    refine ⟨⟨by linarith, by linarith⟩, rfl, fun _ => le_rfl, fun _ => le_rfl, fun _ => ⟨h0, h1⟩⟩
  · rw [hk]
    dsimp only
    refine ⟨⟨by linarith, by linarith⟩, rfl, fun h => by linarith, fun _ => by linarith, ?_⟩
    rintro ⟨a, b, ha, hb⟩
    have ha1 : (1 : Int) ≤ a := by
      have : (0 : ℚ) < a := by linarith
      exact_mod_cast this
    have : (1 : ℚ) ≤ a := by exact_mod_cast ha1
    constructor <;> linarith
  · rw [hk]
    dsimp only
    refine ⟨⟨by linarith, by linarith⟩, rfl, fun _ => by linarith, fun h => by linarith, ?_⟩
    rintro ⟨a, b, ha, hb⟩
    have hab : a + 1 ≤ b := by
      have : (a : ℚ) < b := by linarith
      have : a < b := by exact_mod_cast this
      omega
    have : (a : ℚ) + 1 ≤ b := by exact_mod_cast hab
    constructor <;> linarith

/-- Witness of C9 as amended: on a canvas of height 100 the ship at `yPos = 3`
with the up key held ends at `yPos = -2`, within one step of the top edge. -/
theorem C9_ship_move_bounds_witness :
    -5 < ((⟨50, 3⟩ : Ship).move 100 true false).yPos
    ∧ ((⟨50, 3⟩ : Ship).move 100 true false).yPos + 30 < 100 + 5 :=
  (C9_ship_move_bounds 100 ⟨50, 3⟩ true false (by norm_num) (by norm_num)).1

/-- C10: the difficulty increment recomputed in an active frame is
`0.01 + 0.49 * score / 1,000,000` for the score at the end of that frame, in
exact rational arithmetic; as a function of the score the map is 0.01 at 0, 0.5
at 1,000,000, strictly increasing, and within `[0.01, 0.5]` for
`0 ≤ score ≤ 1,000,000`. -/
theorem C10_difficulty_is_linear_in_score :
    (∀ (collide : Collide) (c : Canvas) (inp : Input) (g : Game),
        g.playing = true → g.loss = false →
        (draw collide c inp g).diff
          = 1 / 100 + 49 / 100 * ((draw collide c inp g).score : ℚ) / 1000000)
    ∧ (∀ score : Int,
        p5map score 0 1000000 (1 / 100) (1 / 2) = 1 / 100 + 49 / 100 * (score : ℚ) / 1000000)
    ∧ p5map ((0 : Int) : ℚ) 0 1000000 (1 / 100) (1 / 2) = 1 / 100
    ∧ p5map ((1000000 : Int) : ℚ) 0 1000000 (1 / 100) (1 / 2) = 1 / 2
    ∧ (∀ a b : Int, a < b →
        p5map a 0 1000000 (1 / 100) (1 / 2) < p5map b 0 1000000 (1 / 100) (1 / 2))
    ∧ (∀ score : Int, 0 ≤ score → score ≤ 1000000 →
        1 / 100 ≤ p5map score 0 1000000 (1 / 100) (1 / 2)
        ∧ p5map score 0 1000000 (1 / 100) (1 / 2) ≤ 1 / 2) := by
  have hlin : ∀ x : ℚ, p5map x 0 1000000 (1 / 100) (1 / 2) = 1 / 100 + 49 / 100 * x / 1000000 := by
    intro x
    unfold p5map
    ring
  refine ⟨?_, fun score => hlin _, ?_, ?_, ?_, ?_⟩
  · intro collide c inp g hp hl
    obtain ⟨_, d2, _, _, _, d6⟩ := draw_active_fields collide c inp g hp hl
    rw [d6, d2, hlin]
  · rw [hlin]; norm_num
  · rw [hlin]; norm_num
  · intro a b hab
    rw [hlin, hlin]
    have : (a : ℚ) < b := by exact_mod_cast hab
    linarith
  · intro score h0 h1
    rw [hlin]
    have h0q : (0 : ℚ) ≤ score := by exact_mod_cast h0
    have h1q : (score : ℚ) ≤ 1000000 := by exact_mod_cast h1
    constructor <;> linarith

/-- Witness of C10: the first frame after `setup` on the narrow canvas is
active and ends with score 0 and increment 0.01; at score 500,000 the map gives
0.255. -/
theorem C10_difficulty_is_linear_in_score_witness :
    (draw (fun _ _ _ _ _ => true) narrowCanvas idleInput (setup narrowCanvas)).diff = 1 / 100
    ∧ 1 / 100 ≤ p5map ((500000 : Int) : ℚ) 0 1000000 (1 / 100) (1 / 2)
    ∧ p5map ((500000 : Int) : ℚ) 0 1000000 (1 / 100) (1 / 2) ≤ 1 / 2 := by
  have h := C10_difficulty_is_linear_in_score
  refine ⟨?_, h.2.2.2.2.2 500000 (by norm_num) (by norm_num)⟩
  rw [h.1 (fun _ _ _ _ _ => true) narrowCanvas idleInput (setup narrowCanvas) rfl rfl,
    first_frame]
  norm_num [idleGame]

/-- C11: for every state and every spawn height `y` (so in particular for
`0 ≤ y < height - 30`): if `timer ≥ 1`, `addEnemy` appends exactly one enemy at
`(width, y)` to the end of the enemy collection, leaves the existing enemies and
everything else unchanged and sets `timer` to 0; if `timer < 1`, `addEnemy`
changes nothing. -/
theorem C11_addEnemy_spawns_at_right_edge (c : Canvas) (y : ℚ) (g : Game) :
    (g.timer ≥ 1 →
      addEnemy c y g = { g with targets := g.targets ++ [⟨c.width, y⟩], timer := 0 })
    ∧ (g.timer < 1 → addEnemy c y g = g) := by
  constructor
  · intro h
    simp [addEnemy, h, TargetSystem.add]
  · intro h
    simp [addEnemy, not_le.mpr h]

/-- Witness of C11: with `timer = 1` an enemy appears at `(640, 100)` behind the
enemy already there; with `timer = 1/2` nothing changes. -/
theorem C11_addEnemy_spawns_at_right_edge_witness :
    addEnemy ⟨640, 480⟩ 100 { idleGame 5 1 with targets := [⟨300, 20⟩] }
        = { idleGame 5 0 with targets := [⟨300, 20⟩, ⟨640, 100⟩] }
    ∧ addEnemy ⟨640, 480⟩ 100 (idleGame 5 (1 / 2)) = idleGame 5 (1 / 2) :=
  ⟨(C11_addEnemy_spawns_at_right_edge ⟨640, 480⟩ 100
      { idleGame 5 1 with targets := [⟨300, 20⟩] }).1 (by norm_num [idleGame]),
   (C11_addEnemy_spawns_at_right_edge ⟨640, 480⟩ 100 (idleGame 5 (1 / 2))).2
      (by norm_num [idleGame])⟩

/-- C12: a press of the pause key `RETURN` changes only the `playing` flag, so
two presses restore the exact prior state; and for every state with
`playing = false` and `loss = false` a frame leaves the whole game state
unchanged. -/
theorem C12_pause_freezes_the_game :
    (∀ g : Game, keyPressed RETURN g = { g with playing := !g.playing })
    ∧ (∀ g : Game, keyPressed RETURN (keyPressed RETURN g) = g)
    ∧ (∀ (collide : Collide) (c : Canvas) (inp : Input) (g : Game),
        g.playing = false → g.loss = false → draw collide c inp g = g) := by
  have h1 : ∀ g : Game, keyPressed RETURN g = { g with playing := !g.playing } := by
    intro g
    simp [keyPressed, RETURN]
  refine ⟨h1, ?_, fun collide c inp g hp hl => draw_paused collide c inp g hp hl⟩
  intro g
  rw [h1, h1]
  simp

/-- Witness of C12: the paused game with an enemy on screen and the up key held
is left as it is by a frame. -/
theorem C12_pause_freezes_the_game_witness :
    draw (fun _ _ _ _ _ => true) ⟨640, 480⟩ ⟨true, false, false, 0, 0, 0⟩
        { idleGame 5 (1 / 2) with targets := [⟨300, 20⟩], playing := false }
      = { idleGame 5 (1 / 2) with targets := [⟨300, 20⟩], playing := false } :=
  C12_pause_freezes_the_game.2.2 (fun _ _ _ _ _ => true) ⟨640, 480⟩
    ⟨true, false, false, 0, 0, 0⟩
    { idleGame 5 (1 / 2) with targets := [⟨300, 20⟩], playing := false } rfl rfl

/-- C13 (the code departs from the claim): the lost game, reachable from `setup`
with `loss` and `playing` both true, takes a press of the fire key: `keyPressed`
appends a bullet at the nose of the ship, `(110, 255)`, to the empty bullet
collection.  `keyPressed` tests `playing` only, where `draw` gates movement on
`playing && !loss`, and `gameOver` never clears `playing`.  The movement half of
the claim holds: with `loss = true` a frame without a Play Again click leaves
the whole state unchanged, whatever keys are held. -/
theorem C13_fire_key_adds_bullet_when_lost :
    (∀ collide : Collide, Reachable collide narrowCanvas lostGame)
    ∧ lostGame.loss = true
    ∧ lostGame.playing = true
    ∧ keyPressed 32 lostGame = { lostGame with bullets := [⟨110, 255⟩] }
    ∧ (keyPressed 32 lostGame).bullets ≠ lostGame.bullets
    ∧ (∀ (collide : Collide) (c : Canvas) (inp : Input) (g : Game),
        g.loss = true → playAgain c inp = false → draw collide c inp g = g) := by
  have h : keyPressed 32 lostGame = { lostGame with bullets := [⟨110, 255⟩] } := by
    norm_num [keyPressed, lostGame, BulletSystem.add, Ship.width, Ship.height, shipWidth,
      shipHeight]
  refine ⟨fun collide => lostGame_reachable collide, rfl, rfl, h, ?_, ?_⟩
  · rw [h]
    simp [lostGame]
  · intro collide c inp g hl hc
    rw [draw_loss collide c inp g hl, hc]
    rfl

/-- Witness of C13: in the lost game a frame with both arrow keys held and no
click leaves the state as it is. -/
theorem C13_fire_key_adds_bullet_when_lost_witness :
    draw (fun _ _ _ _ _ => true) narrowCanvas ⟨true, true, false, 0, 0, 0⟩ lostGame
      = lostGame :=
  C13_fire_key_adds_bullet_when_lost.2.2.2.2.2 (fun _ _ _ _ _ => true) narrowCanvas
    ⟨true, true, false, 0, 0, 0⟩ lostGame rfl (by simp [playAgain])

/-- C14 (the code departs from the claim): the first triangle `Enemy.display`
draws is `(xPos + 60, yPos), (xPos, yPos + 15), (xPos + 60, yPos + 30)`, while
`Enemy.toArray` returns `(xPos, yPos), (xPos + 60, yPos + 15), (xPos, yPos + 30)`,
the triangle of a ship at that position, which does not even have the drawn
vertex `(xPos + 60, yPos)`.  The ship half of the claim holds: `Ship.toArray` is
the first triangle `Ship.display` draws. -/
theorem C14_enemy_toArray_is_not_the_drawn_triangle :
    (∀ e : Enemy,
        e.display.head? = some [(e.xPos + 60, e.yPos), (e.xPos, e.yPos + 15),
          (e.xPos + 60, e.yPos + 30)]
        ∧ e.toArray = [(e.xPos, e.yPos), (e.xPos + 60, e.yPos + 15), (e.xPos, e.yPos + 30)]
        ∧ e.toArray = (Ship.mk e.xPos e.yPos).toArray
        ∧ (e.xPos + 60, e.yPos) ∉ e.toArray
        ∧ some e.toArray ≠ e.display.head?)
    ∧ (∀ s : Ship, s.display.head? = some s.toArray) := by
  constructor
  · intro e
    have hmem : (e.xPos + 60, e.yPos) ∉ e.toArray := by
      simp [Enemy.toArray, Enemy.width, Enemy.height, shipWidth, shipHeight]
    refine ⟨?_, ?_, rfl, hmem, ?_⟩
    · norm_num [Enemy.display, Enemy.width, Enemy.height, shipWidth, shipHeight]
    · norm_num [Enemy.toArray, Enemy.width, Enemy.height, shipWidth, shipHeight]
    · intro h
      apply hmem
      have h2 : e.display.head? = some [(e.xPos + e.width, e.yPos),
          (e.xPos, e.yPos + e.height / 2), (e.xPos + e.width, e.yPos + e.height)] := rfl
      rw [h2] at h
      have h3 := Option.some.inj h
      rw [h3]
      simp [Enemy.width, shipWidth]
  · intro s
    rfl

/-- C15 (the code departs from the claim): with two bullets and three enemies,
the first bullet hitting the first and the third enemy, one
`BulletSystem.update` empties the bullet collection.  The second bullet, at
`(0, 300)`, is never visited: it is not advanced, it is far from the right edge
(`0 + 5 ≤ 640`) and the collision test is false for it against every polygon;
it is taken out by the second `this.remove(i)` of the first bullet, whose inner
loop has no `break`. -/
theorem C15_bullet_removed_by_another_bullets_hit :
    (BulletSystem.update (fun _ y _ _ _ => decide (y = 60)) 640
      { s := ⟨50, 240⟩, bullets := [⟨95, 60⟩, ⟨0, 300⟩],
        targets := [⟨100, 50⟩, ⟨104, 50⟩, ⟨108, 50⟩],
        life := 5, score := 0, timer := 0, diff := 1 / 100,
        playing := true, loss := false, highScore := 0 })
      = { s := ⟨50, 240⟩, bullets := [],
          targets := [⟨104, 50⟩],
          life := 5, score := 10, timer := 0, diff := 1 / 100,
          playing := true, loss := false, highScore := 0 }
    ∧ ¬ ((⟨0, 300⟩ : Bullet).move.xPos > 640)
    ∧ (∀ (x w h : ℚ) (poly : List (ℚ × ℚ)),
        (fun (_ y _ _ : ℚ) (_ : List (ℚ × ℚ)) => decide (y = 60)) x 300 w h poly = false) := by
  refine ⟨?_, ?_, ?_⟩
  · norm_num [BulletSystem.update, BulletSystem.updateLoop_test, BulletSystem.updateLoop_done,
      BulletSystem.updateInner_hit, BulletSystem.updateInner_done,
      Bullet.move, Bullet.xSpeed, Bullet.width, Bullet.height, BulletSystem.remove,
      TargetSystem.remove]
  · norm_num [Bullet.move, Bullet.xSpeed]
  · intro x w h poly
    norm_num

/-- C16: for every enemy collection with at least two enemies whose first enemy
has `xPos ≤ 0`, `TargetSystem.update` removes the first enemy and passes over
the second, whatever its `xPos`: the second ends at index 0 as it was, the
enemies after it are treated as by an update of them alone, and life drops by 1
for the first enemy plus what that update of the rest takes, never for the
second. -/
theorem C16_update_passes_over_enemy_after_removal (g : Game) (e e2 : Enemy)
    (rest : List Enemy) (hg : g.targets = e :: e2 :: rest) (hx : e.xPos ≤ 0) :
    (TargetSystem.update g).targets
        = e2 :: (TargetSystem.update { g with targets := rest }).targets
    ∧ (TargetSystem.update g).targets.head? = some e2
    ∧ (TargetSystem.update g).life
        = (TargetSystem.update { g with targets := rest }).life - 1
    ∧ (rest = [] → TargetSystem.update g = { g with targets := [e2], life := g.life - 1 }) := by
  have hx1 : ¬ e.xPos > 0 := not_lt.mpr hx
  have hs : TargetSystem.sweep (e :: e2 :: rest) = e2 :: TargetSystem.sweep rest := by
    simp only [TargetSystem.sweep, hx1, if_false]
  have hb : TargetSystem.breaches (e :: e2 :: rest) = TargetSystem.breaches rest + 1 := by
    simp only [TargetSystem.breaches, hx1, if_false]
  rw [TargetSystem.update_eq, TargetSystem.update_eq, hg, hs, hb]
  refine ⟨rfl, rfl, ?_, ?_⟩
  · push_cast
    ring
  · intro hr
    subst hr
    simp [TargetSystem.sweep, TargetSystem.breaches]

/-- Witness of C16: two enemies at `xPos = 0`; the first is removed, the second
stays where it is and life drops by 1 only. -/
theorem C16_update_passes_over_enemy_after_removal_witness :
    TargetSystem.update { idleGame 5 0 with targets := [⟨0, 10⟩, ⟨0, 20⟩] }
      = { idleGame 5 0 with targets := [⟨0, 20⟩], life := 5 - 1 } :=
  (C16_update_passes_over_enemy_after_removal
    { idleGame 5 0 with targets := [⟨0, 10⟩, ⟨0, 20⟩] } ⟨0, 10⟩ ⟨0, 20⟩ [] rfl
    (by norm_num)).2.2.2 rfl

/-- C17: an enemy alone at `x0` (in particular at any `x0 > 0`) with no bullets
and no spawns: after each of
the first `⌈x0 / 2⌉` calls of `TargetSystem.update` it is still there, at
`x0 - 2 k` after `k` calls, with life and everything else unchanged; after
`⌈x0 / 2⌉ + 1` calls the collection is empty, life is one less and the score is
unchanged; further calls change nothing. -/
theorem C17_uncontested_crossing (g : Game) (x0 y : ℚ)
    (hg : g.targets = [⟨x0, y⟩]) :
    (∀ k : Nat, k ≤ ⌈x0 / 2⌉₊ →
        Nat.iterate TargetSystem.update k g = { g with targets := [⟨x0 - 2 * k, y⟩] })
    ∧ (∀ m : Nat,
        Nat.iterate TargetSystem.update (⌈x0 / 2⌉₊ + 1 + m) g
          = { g with targets := [], life := g.life - 1 }) := by
  have hmarch : ∀ k : Nat, k ≤ ⌈x0 / 2⌉₊ →
      Nat.iterate TargetSystem.update k g = { g with targets := [⟨x0 - 2 * k, y⟩] } := by
    intro k
    induction k with
    | zero =>
      intro _
      simp [← hg]
    | succ k ih =>
      intro hk
      have hlt : (k : ℚ) < x0 / 2 := Nat.lt_ceil.mp (Nat.lt_of_succ_le hk)
      have hpos : x0 - 2 * (k : ℚ) > 0 := by linarith
      rw [Function.iterate_succ_apply', ih (Nat.le_of_succ_le hk), TargetSystem.update_eq]
      simp only [TargetSystem.sweep, TargetSystem.breaches, hpos, if_true, Enemy.move,
        Enemy.xSpeed]
      push_cast
      simp only [sub_zero]
      congr 3
      ring
  have hlast : Nat.iterate TargetSystem.update (⌈x0 / 2⌉₊ + 1) g
      = { g with targets := [], life := g.life - 1 } := by
    have hle : x0 / 2 ≤ (⌈x0 / 2⌉₊ : ℚ) := Nat.le_ceil _
    have hnp : ¬ x0 - 2 * (⌈x0 / 2⌉₊ : ℚ) > 0 := by
      rw [not_lt]
      linarith
    rw [Function.iterate_succ_apply', hmarch _ le_rfl, TargetSystem.update_eq]
    simp only [TargetSystem.sweep, TargetSystem.breaches, hnp, if_false]
    push_cast
    rfl
  refine ⟨hmarch, ?_⟩
  intro m
  induction m with
  | zero => exact hlast
  | succ m ih =>
    rw [← Nat.add_assoc, Function.iterate_succ_apply', ih, TargetSystem.update_eq]
    simp [TargetSystem.sweep, TargetSystem.breaches]

/-- Witness of C17: an enemy alone at `xPos = 3` with 5 lives is at 1 after one
update, at -1 after two, and gone after three, with 4 lives left. -/
theorem C17_uncontested_crossing_witness :
    Nat.iterate TargetSystem.update 2 { idleGame 5 0 with targets := [⟨3, 100⟩] }
        = { idleGame 5 0 with targets := [⟨3 - 2 * (2 : Nat), 100⟩] }
    ∧ Nat.iterate TargetSystem.update (⌈(3 : ℚ) / 2⌉₊ + 1 + 0)
          { idleGame 5 0 with targets := [⟨3, 100⟩] }
        = { idleGame 5 0 with targets := [], life := 5 - 1 } :=
  ⟨(C17_uncontested_crossing { idleGame 5 0 with targets := [⟨3, 100⟩] } 3 100 rfl).1 2
      (Nat.succ_le_of_lt (Nat.lt_ceil.mpr (by norm_num))),
   (C17_uncontested_crossing { idleGame 5 0 with targets := [⟨3, 100⟩] } 3 100 rfl).2 0⟩

/-- C18: in every state reachable from `setup` on any canvas, through frames
with any input and any spawn height, key presses and resets, and for any
collision test, `0 ≤ life ≤ 5`; a frame lowers life by at most 1, so no frame
takes life from a positive value to below 0. -/
theorem C18_life_stays_within_bounds (collide : Collide) (c : Canvas) :
    (∀ g : Game, Reachable collide c g → 0 ≤ g.life ∧ g.life ≤ 5)
    ∧ (∀ (g : Game) (inp : Input), Reachable collide c g →
        g.life - 1 ≤ (draw collide c inp g).life
        ∧ (0 < g.life → 0 ≤ (draw collide c inp g).life)) := by
  constructor
  · intro g h
    obtain ⟨_, h2, h3, _⟩ := reachable_life collide c g h
    exact ⟨h3, h2⟩
  · intro g inp h
    obtain ⟨h1, _, h3, _⟩ := reachable_life collide c g h
    have key : g.life - 1 ≤ (draw collide c inp g).life := by
      cases hl : g.loss with
      | true =>
        rw [draw_loss collide c inp g hl]
        split
        · have : (Invaders.resetGame c g).life = 5 := rfl
          rw [this]
          obtain ⟨_, h2, _, _⟩ := reachable_life collide c g h
          linarith
        · linarith
      | false =>
        cases hp : g.playing with
        | false =>
          rw [draw_paused collide c inp g hp hl]
          linarith
        | true =>
          obtain ⟨d1, _, _, _, _, _⟩ := draw_active_fields collide c inp g hp hl
          rw [d1]
          exact (afterPasses_lined collide c inp g h1).2.1
    exact ⟨key, fun hpos => by linarith⟩

/-- Witness of C18: the lost game on the narrow canvas is reachable with
`life = 0`, and the frame after `setup` there takes life from 5 to 4. -/
theorem C18_life_stays_within_bounds_witness :
    (0 ≤ lostGame.life ∧ lostGame.life ≤ 5)
    ∧ 0 ≤ (draw (fun _ _ _ _ _ => true) narrowCanvas idleInput (setup narrowCanvas)).life :=
  ⟨(C18_life_stays_within_bounds (fun _ _ _ _ _ => true) narrowCanvas).1 lostGame
      (lostGame_reachable _),
   ((C18_life_stays_within_bounds (fun _ _ _ _ _ => true) narrowCanvas).2
      (setup narrowCanvas) idleInput (Reachable.setup)).2 (by decide)⟩

end Invaders
